import Mathlib

/-
Verification development for the scalist keyframe-scaling tool
(`src/scalist.py`, v1.5; `src/scale_keys.py` is the older v1.3 of the same
tool and is superseded where the two differ).

The embedding models the host (Maya graph editor) as a store of named
curves, each a list of keyframes carrying a time, a value and a selection
flag, plus the playback cursor and the host-tracked last-selected key.
Every `pm.*` call of the source becomes an explicit state transition on a
`World` (host state plus a trace of the host commands issued), so that
re-queries, warnings and mutations are all observable.

Host command semantics (`pm.scaleKey`, `pm.snapKey`) are modelled from the
spec's description of the host interface: scaling maps a key's coordinate
`x` to `pivot + (x - pivot) * factor`; an omitted target means "the
selected keys"; an explicit curve plus a degenerate time range `(t, t)`
means "the keys of that curve currently at time `t`"; snapping rounds the
selected keys' times to the nearest integer frame.  A `none` pivot (the
unimplemented ramped strategy, or an unknown strategy name) is recorded in
the trace and leaves the store unchanged.
-/

set_option autoImplicit false

/-- A keyframe: a (time, value) pair together with the host's selection flag. -/
structure Key where
  time : ℚ
  value : ℚ
  selected : Bool
deriving DecidableEq, Repr

/-- An animation curve: a named list of keyframes. -/
structure Curve where
  name : String
  keys : List Key
deriving DecidableEq, Repr

/-- The host store: the curves plus the playback cursor and the
host-tracked time/value of the most recently selected key. -/
structure Host where
  curves : List Curve
  currentTime : ℚ
  lastSelTime : ℚ
  lastSelValue : ℚ
deriving DecidableEq, Repr

/-- The keys of a curve that are currently selected. -/
def Curve.selKeys (c : Curve) : List Key := c.keys.filter (·.selected)

/-- The values of a curve's selected keys, in key order. -/
def Curve.selValues (c : Curve) : List ℚ := c.selKeys.map (·.value)

/-- The times of a curve's selected keys, in key order. -/
def Curve.selTimes (c : Curve) : List ℚ := c.selKeys.map (·.time)

/-- `pm.keyframe(query=True, selected=True, name=True)`: the names of the
curves that currently have selected keys. -/
def Host.selCurveNames (h : Host) : List String :=
  (h.curves.filter (fun c => !c.selKeys.isEmpty)).map (·.name)

/-- `pm.keyframe(query=True, selected=True, valueChange=True)`: the values
of all selected keys, curve by curve. -/
def Host.allSelValues (h : Host) : List ℚ := (h.curves.map Curve.selValues).flatten

/-- `pm.keyframe(query=True, selected=True, timeChange=True)`: the times
of all selected keys, curve by curve. -/
def Host.allSelTimes (h : Host) : List ℚ := (h.curves.map Curve.selTimes).flatten

/-- The curves of the host carrying a given name. -/
def Host.namedCurves (h : Host) (n : String) : List Curve :=
  h.curves.filter (fun c => c.name == n)

/-- `pm.keyframe(curve, query=True, selected=True, valueChange=True)`. -/
def Host.curveSelValues (h : Host) (n : String) : List ℚ :=
  ((h.namedCurves n).map Curve.selValues).flatten

/-- `pm.keyframe(curve, query=True, selected=True, timeChange=True)`. -/
def Host.curveSelTimes (h : Host) (n : String) : List ℚ :=
  ((h.namedCurves n).map Curve.selTimes).flatten

/-- The affine scale transform the host applies about a pivot:
`x ↦ pivot + (x - pivot) * factor`. -/
def scaleAbout (p s x : ℚ) : ℚ := p + (x - p) * s

/-- Scaling about an optional pivot; a missing pivot leaves the
coordinate unchanged (the host call would fail, mutating nothing). -/
def scaleAboutO (p : Option ℚ) (s x : ℚ) : ℚ :=
  match p with
  | some p => scaleAbout p s x
  | none => x

/-- Scale a key's value if the key is selected. -/
def Key.scaleValueIfSel (p : Option ℚ) (s : ℚ) (k : Key) : Key :=
  if k.selected then { k with value := scaleAboutO p s k.value } else k

/-- Scale a key's value if the key sits at time `t`. -/
def Key.scaleValueAt (p : Option ℚ) (s : ℚ) (t : ℚ) (k : Key) : Key :=
  if k.time = t then { k with value := scaleAboutO p s k.value } else k

/-- Scale a key's value if its time lies in `ts` (a reasoning helper for
the per-key fold; not itself a host operation). -/
def Key.scaleValueAtMem (p : Option ℚ) (s : ℚ) (ts : List ℚ) (k : Key) : Key :=
  if k.time ∈ ts then { k with value := scaleAboutO p s k.value } else k

/-- Scale a key's time if the key is selected. -/
def Key.scaleTimeIfSel (p : Option ℚ) (s : ℚ) (k : Key) : Key :=
  if k.selected then { k with time := scaleAboutO p s k.time } else k

/-- Scale a key's time if the key sits at time `t`. -/
def Key.scaleTimeAt (p : Option ℚ) (s : ℚ) (t : ℚ) (k : Key) : Key :=
  if k.time = t then { k with time := scaleAboutO p s k.time } else k

/-- Round a key's time to the nearest integer frame if the key is selected. -/
def Key.snapIfSel (k : Key) : Key :=
  if k.selected then { k with time := ((round k.time : ℤ) : ℚ) } else k

/-- Scale the selected keys' values on one curve. -/
def Curve.valueScaled (p : Option ℚ) (s : ℚ) (c : Curve) : Curve :=
  { c with keys := c.keys.map (Key.scaleValueIfSel p s) }

/-- Scale the selected keys' times on one curve. -/
def Curve.timeScaled (p : Option ℚ) (s : ℚ) (c : Curve) : Curve :=
  { c with keys := c.keys.map (Key.scaleTimeIfSel p s) }

/-- `pm.scaleKey(valuePivot=p, valueScale=s)`: scale every selected key's
value, on every curve. -/
def Host.applyScaleValueAll (h : Host) (p : Option ℚ) (s : ℚ) : Host :=
  { h with curves := h.curves.map (Curve.valueScaled p s) }

/-- `pm.scaleKey(curve, valuePivot=p, valueScale=s, time=(t, t))`: scale
the value of the keys of curve `n` currently at time `t`. -/
def Host.applyScaleValueKey (h : Host) (n : String) (p : Option ℚ) (s : ℚ) (t : ℚ) : Host :=
  { h with curves := h.curves.map (fun c =>
      if c.name = n then { c with keys := c.keys.map (Key.scaleValueAt p s t) } else c) }

/-- `pm.scaleKey(timePivot=p, timeScale=s)`: scale every selected key's
time, on every curve. -/
def Host.applyScaleTimeAll (h : Host) (p : Option ℚ) (s : ℚ) : Host :=
  { h with curves := h.curves.map (Curve.timeScaled p s) }

/-- `pm.scaleKey(curve, timePivot=p, timeScale=s, time=(t, t))`: scale the
time of the keys of curve `n` currently at time `t`. -/
def Host.applyScaleTimeKey (h : Host) (n : String) (p : Option ℚ) (s : ℚ) (t : ℚ) : Host :=
  { h with curves := h.curves.map (fun c =>
      if c.name = n then { c with keys := c.keys.map (Key.scaleTimeAt p s t) } else c) }

/-- `pm.snapKey(tm=1.0)`: round every selected key's time to the nearest
integer frame. -/
def Host.applySnapAll (h : Host) : Host :=
  { h with curves := h.curves.map (fun c => { c with keys := c.keys.map Key.snapIfSel }) }

/-- One host command, as recorded in the interaction trace. -/
inductive HostCmd where
  /-- any `pm.keyframe(query=True, selected=True, ...)` selection read -/
  | querySel
  /-- `pm.keyframe(query=True, lastSelected=True, ...)` -/
  | queryLastSel
  /-- `pm.currentTime(query=True)` -/
  | queryCurTime
  | scaleValueAll (p : Option ℚ) (s : ℚ)
  | scaleValueKey (n : String) (p : Option ℚ) (s : ℚ) (t : ℚ)
  | scaleTimeAll (p : Option ℚ) (s : ℚ)
  | scaleTimeKey (n : String) (p : Option ℚ) (s : ℚ) (t : ℚ)
  | snapAll
  | warn (msg : String)
deriving DecidableEq, Repr

/-- The world the tool runs against: the host store plus the trace of
host commands issued so far. -/
structure World where
  host : Host
  trace : List HostCmd
deriving DecidableEq, Repr

def pmQuerySelNames (w : World) : List String × World :=
  (w.host.selCurveNames, { w with trace := w.trace ++ [.querySel] })

def pmQuerySelValues (w : World) : List ℚ × World :=
  (w.host.allSelValues, { w with trace := w.trace ++ [.querySel] })

def pmQuerySelTimes (w : World) : List ℚ × World :=
  (w.host.allSelTimes, { w with trace := w.trace ++ [.querySel] })

def pmQueryCurveValues (n : String) (w : World) : List ℚ × World :=
  (w.host.curveSelValues n, { w with trace := w.trace ++ [.querySel] })

def pmQueryCurveTimes (n : String) (w : World) : List ℚ × World :=
  (w.host.curveSelTimes n, { w with trace := w.trace ++ [.querySel] })

def pmQueryLastSelValue (w : World) : ℚ × World :=
  (w.host.lastSelValue, { w with trace := w.trace ++ [.queryLastSel] })

def pmQueryLastSelTime (w : World) : ℚ × World :=
  (w.host.lastSelTime, { w with trace := w.trace ++ [.queryLastSel] })

def pmQueryCurrentTime (w : World) : ℚ × World :=
  (w.host.currentTime, { w with trace := w.trace ++ [.queryCurTime] })

def pmScaleValueAll (p : Option ℚ) (s : ℚ) (w : World) : World :=
  { host := w.host.applyScaleValueAll p s, trace := w.trace ++ [.scaleValueAll p s] }

def pmScaleValueKey (n : String) (p : Option ℚ) (s : ℚ) (t : ℚ) (w : World) : World :=
  { host := w.host.applyScaleValueKey n p s t, trace := w.trace ++ [.scaleValueKey n p s t] }

def pmScaleTimeAll (p : Option ℚ) (s : ℚ) (w : World) : World :=
  { host := w.host.applyScaleTimeAll p s, trace := w.trace ++ [.scaleTimeAll p s] }

def pmScaleTimeKey (n : String) (p : Option ℚ) (s : ℚ) (t : ℚ) (w : World) : World :=
  { host := w.host.applyScaleTimeKey n p s t, trace := w.trace ++ [.scaleTimeKey n p s t] }

def pmSnapAll (w : World) : World :=
  { host := w.host.applySnapAll, trace := w.trace ++ [.snapAll] }

def pmWarn (msg : String) (w : World) : World :=
  { w with trace := w.trace ++ [.warn msg] }

/-- The `Scalist` object: the pivot-strategy name, the user scale factor,
and the selection snapshot captured by the constructor. -/
structure Scalist where
  pivot : String
  scale : ℚ
  curves : List String
  key_values : List ℚ
  key_times : List ℚ
  scale_type : String
deriving DecidableEq, Repr

/-- `Scalist.__init__`: read the scale amount and snapshot the selection
(curve names, selected values, selected times) from the host. -/
def Scalist.init (pivot : String) (user_scale : ℚ) (scale_type : String)
    (w : World) : Scalist × World :=
  let r1 := pmQuerySelNames w
  let r2 := pmQuerySelValues r1.2
  let r3 := pmQuerySelTimes r2.2
  ({ pivot := pivot, scale := user_scale, curves := r1.1,
     key_values := r2.1, key_times := r3.1, scale_type := scale_type }, r3.2)

/-- The middle of a list of values, `(max + min) / 2` (`pivot_middle_value`);
`none` on an empty list, where the Python `max` would raise. -/
def middleOf (vs : List ℚ) : Option ℚ :=
  match vs.max?, vs.min? with
  | some a, some b => some ((a + b) / 2)
  | _, _ => none

/-- `Scalist.get_pivot`: dispatch on the strategy name, as the source's
`switcher` dictionary does.  Returns the pivot (`none` when the strategy
computes no value: the `pass` body of `pivot_ramped_value`, an empty
selection, or an unknown name), the possibly-updated object (the flip
strategies assign `self.scale = -1`), and the world (the last-selected and
current-time strategies query the host). -/
def Scalist.get_pivot (sc : Scalist) (w : World) : Option ℚ × Scalist × World :=
  if sc.pivot = "pivot_zero_value" then (some 0, sc, w)
  else if sc.pivot = "pivot_highest_value" then (sc.key_values.max?, sc, w)
  else if sc.pivot = "pivot_lowest_value" then (sc.key_values.min?, sc, w)
  else if sc.pivot = "pivot_middle_value" then (middleOf sc.key_values, sc, w)
  else if sc.pivot = "pivot_last_selected_value" then
    (some (pmQueryLastSelValue w).1, sc, (pmQueryLastSelValue w).2)
  else if sc.pivot = "pivot_first_time" then (sc.key_times.min?, sc, w)
  else if sc.pivot = "pivot_last_time" then (sc.key_times.max?, sc, w)
  else if sc.pivot = "pivot_current_time" then
    (some (pmQueryCurrentTime w).1, sc, (pmQueryCurrentTime w).2)
  else if sc.pivot = "pivot_last_selected_time" then
    (some (pmQueryLastSelTime w).1, sc, (pmQueryLastSelTime w).2)
  else if sc.pivot = "pivot_flip_curve_value" then
    (middleOf sc.key_values, { sc with scale := -1 }, w)
  else if sc.pivot = "pivot_first_value" then (sc.key_values.head?, sc, w)
  else if sc.pivot = "pivot_ramped_value" then (none, sc, w)
  else if sc.pivot = "pivot_flip_zero_value" then (some 0, { sc with scale := -1 }, w)
  else (none, sc, w)

/-- The keys of the source's `switcher` dictionary in `get_pivot`. -/
def pivot_switcher_keys : List String :=
  ["pivot_zero_value", "pivot_highest_value", "pivot_lowest_value",
   "pivot_middle_value", "pivot_last_selected_value", "pivot_first_time",
   "pivot_last_time", "pivot_current_time", "pivot_last_selected_time",
   "pivot_flip_curve_value", "pivot_first_value", "pivot_ramped_value",
   "pivot_flip_zero_value"]

/-- `Scalist.scale_keys_value`: one pivot for the whole selection, one
batched value-scale call.  The pivot is computed first (possibly updating
`self.scale`), then `self.scale` is read, matching Python's left-to-right
evaluation of the keyword arguments. -/
def Scalist.scale_keys_value (sc : Scalist) (w : World) : Scalist × World :=
  let r := sc.get_pivot w
  (r.2.1, pmScaleValueAll r.1 r.2.1.scale r.2.2)

/-- One iteration of the `scale_keys_value_multi` loop body for one curve:
re-read that curve's selected values and times, compute the pivot from
them, then scale the curve's keys one at a time by their (snapshot) times. -/
def Scalist.valueMultiStep (sc : Scalist) (w : World) (n : String) : Scalist × World :=
  let vs := (pmQueryCurveValues n w).1
  let w1 := (pmQueryCurveValues n w).2
  let ts := (pmQueryCurveTimes n w1).1
  let w2 := (pmQueryCurveTimes n w1).2
  let sc1 := { sc with key_values := vs, key_times := ts }
  let r := sc1.get_pivot w2
  let w4 := (List.range r.2.1.key_values.length).foldl
    (fun wa i => pmScaleValueKey n r.1 r.2.1.scale (r.2.1.key_times.getD i 0) wa) r.2.2
  (r.2.1, w4)

/-- `Scalist.scale_keys_value_multi`: per-curve value scaling. -/
def Scalist.scale_keys_value_multi (sc : Scalist) (w : World) : Scalist × World :=
  sc.curves.foldl (fun acc n => acc.1.valueMultiStep acc.2 n) (sc, w)

/-- `Scalist.scale_keys_time`: one batched time-scale call followed by a
snap of all selected keys to integer frames. -/
def Scalist.scale_keys_time (sc : Scalist) (w : World) : Scalist × World :=
  let r := sc.get_pivot w
  (r.2.1, pmSnapAll (pmScaleTimeAll r.1 r.2.1.scale r.2.2))

/-- One iteration of the inner `scale_keys_time_multi` loop for one key:
the pivot is recomputed (`self.get_pivot()` appears inside the loop), then
the key at snapshot time `t` is scaled. -/
def Scalist.timeMultiKeyStep (n : String) (acc : Scalist × World) (t : ℚ) : Scalist × World :=
  let r := acc.1.get_pivot acc.2
  (r.2.1, pmScaleTimeKey n r.1 r.2.1.scale t r.2.2)

/-- One iteration of the `scale_keys_time_multi` outer loop for one curve:
re-read the curve's selected times; iterate over the key indices in
reverse when the pivot strategy is `pivot_last_time` and forward
otherwise; snap after the curve is done. -/
def Scalist.timeMultiStep (sc : Scalist) (w : World) (n : String) : Scalist × World :=
  let ts := (pmQueryCurveTimes n w).1
  let w1 := (pmQueryCurveTimes n w).2
  let sc1 := { sc with key_times := ts }
  let idxs := if sc1.pivot = "pivot_last_time" then
      (List.range ts.length).reverse
    else
      List.range ts.length
  let r := idxs.foldl (fun acc i => Scalist.timeMultiKeyStep n acc (ts.getD i 0)) (sc1, w1)
  (r.1, pmSnapAll r.2)

/-- `Scalist.scale_keys_time_multi`: per-curve time scaling. -/
def Scalist.scale_keys_time_multi (sc : Scalist) (w : World) : Scalist × World :=
  sc.curves.foldl (fun acc n => acc.1.timeMultiStep acc.2 n) (sc, w)

/-- `Scalist.get_scale_type`: dispatch on the operation name (the source's
`scale_operations` dictionary). -/
def Scalist.get_scale_type (sc : Scalist) (w : World) : Scalist × World :=
  if sc.scale_type = "scale_keys_value" then sc.scale_keys_value w
  else if sc.scale_type = "scale_keys_value_multi" then sc.scale_keys_value_multi w
  else if sc.scale_type = "scale_keys_time" then sc.scale_keys_time w
  else if sc.scale_type = "scale_keys_time_multi" then sc.scale_keys_time_multi w
  else (sc, w)

/-- The pivot strategies the guard accepts on a single selected key. -/
def single_key_exceptions : List String :=
  ["pivot_zero_value", "pivot_current_time", "pivot_flip_zero_value"]

/-- `check_for_selected_keys`: the Selection Guard. -/
def check_for_selected_keys (pivot : String) (w : World) : Bool × World :=
  let ks := (pmQuerySelTimes w).1
  let w1 := (pmQuerySelTimes w).2
  if ks.length ≥ 2 then (true, w1)
  else if ks.length > 0 ∧ pivot ∈ single_key_exceptions then (true, w1)
  else (false, pmWarn "[scalist.py] Please select at least 2 keyframes." w1)

/-- `do_scale`: guard, then construct the `Scalist` and run the operation. -/
def do_scale (pivot : String) (user_scale : ℚ) (scale_type : String) (w : World) : World :=
  let r := check_for_selected_keys pivot w
  if r.1 then
    let ri := Scalist.init pivot user_scale scale_type r.2
    (ri.1.get_scale_type ri.2).2
  else r.2

/-!  Trace observations.  -/

/-- Is a trace entry a read of the host's selection state? -/
def HostCmd.isSelRead : HostCmd → Bool
  | .querySel => true
  | _ => false

/-- Is a trace entry a user-visible warning? -/
def HostCmd.isWarn : HostCmd → Bool
  | .warn _ => true
  | _ => false

/-- Is a trace entry a mutation of the host store? -/
def HostCmd.isMut : HostCmd → Bool
  | .scaleValueAll _ _ => true
  | .scaleValueKey _ _ _ _ => true
  | .scaleTimeAll _ _ => true
  | .scaleTimeKey _ _ _ _ => true
  | .snapAll => true
  | _ => false

/-- Number of selection reads in a trace. -/
def selReadCount (tr : List HostCmd) : ℕ := (tr.filter HostCmd.isSelRead).length

/-- Number of warnings in a trace. -/
def warnCount (tr : List HostCmd) : ℕ := (tr.filter HostCmd.isWarn).length

/-- Number of mutation commands in a trace. -/
def mutCount (tr : List HostCmd) : ℕ := (tr.filter HostCmd.isMut).length

/-- The time arguments of the per-key time-scale commands of a trace, in
order of emission. -/
def timeKeyArgs (tr : List HostCmd) : List ℚ :=
  tr.filterMap (fun c => match c with
    | .scaleTimeKey _ _ _ t => some t
    | _ => none)

/-- All key times of the curves named `n`, in store order. -/
def Host.curveTimes (h : Host) (n : String) : List ℚ :=
  ((h.namedCurves n).map (fun c => c.keys.map (·.time))).flatten

/-- All key values of the curves named `n`, in store order. -/
def Host.curveValues (h : Host) (n : String) : List ℚ :=
  ((h.namedCurves n).map (fun c => c.keys.map (·.value))).flatten


/-!  Specification views of `get_pivot`.

`pivotValue`, `effScale` and `pivotTrace` spell out, branch by branch, the
pivot value, the effective scale factor (the flip strategies overwrite
`self.scale` with `-1`) and the host queries issued by `get_pivot`; the
lemma `Scalist.get_pivot_eq` proves them equal to the source translation. -/

/-- The pivot value each strategy computes, as a function of the object's
value/time snapshot and the host scalar state. -/
def pivotValue (strat : String) (vals times : List ℚ) (h : Host) : Option ℚ :=
  if strat = "pivot_zero_value" then some 0
  else if strat = "pivot_highest_value" then vals.max?
  else if strat = "pivot_lowest_value" then vals.min?
  else if strat = "pivot_middle_value" then middleOf vals
  else if strat = "pivot_last_selected_value" then some h.lastSelValue
  else if strat = "pivot_first_time" then times.min?
  else if strat = "pivot_last_time" then times.max?
  else if strat = "pivot_current_time" then some h.currentTime
  else if strat = "pivot_last_selected_time" then some h.lastSelTime
  else if strat = "pivot_flip_curve_value" then middleOf vals
  else if strat = "pivot_first_value" then vals.head?
  else if strat = "pivot_ramped_value" then none
  else if strat = "pivot_flip_zero_value" then some 0
  else none

/-- The scale factor actually used after the pivot is computed: the flip
strategies force `-1`, every other strategy keeps the user factor. -/
def effScale (strat : String) (f : ℚ) : ℚ :=
  if strat = "pivot_flip_curve_value" then -1
  else if strat = "pivot_flip_zero_value" then -1
  else f

/-- The host commands `get_pivot` issues for each strategy. -/
def pivotTrace (strat : String) : List HostCmd :=
  if strat = "pivot_last_selected_value" then [.queryLastSel]
  else if strat = "pivot_current_time" then [.queryCurTime]
  else if strat = "pivot_last_selected_time" then [.queryLastSel]
  else []

theorem Scalist.get_pivot_eq (sc : Scalist) (w : World) :
    sc.get_pivot w
      = (pivotValue sc.pivot sc.key_values sc.key_times w.host,
         { sc with scale := effScale sc.pivot sc.scale },
         { w with trace := w.trace ++ pivotTrace sc.pivot }) := by
  obtain ⟨p, s, cs, kv, kt, ty⟩ := sc
  obtain ⟨h, tr⟩ := w
  unfold Scalist.get_pivot pivotValue effScale pivotTrace
  unfold pmQueryLastSelValue pmQueryCurrentTime pmQueryLastSelTime
  by_cases h1 : p = "pivot_zero_value"
  · subst h1; simp
  simp only [if_neg h1]
  by_cases h2 : p = "pivot_highest_value"
  · subst h2; simp
  simp only [if_neg h2]
  by_cases h3 : p = "pivot_lowest_value"
  · subst h3; simp
  simp only [if_neg h3]
  by_cases h4 : p = "pivot_middle_value"
  · subst h4; simp
  simp only [if_neg h4]
  by_cases h5 : p = "pivot_last_selected_value"
  · subst h5; simp
  simp only [if_neg h5]
  by_cases h6 : p = "pivot_first_time"
  · subst h6; simp
  simp only [if_neg h6]
  by_cases h7 : p = "pivot_last_time"
  · subst h7; simp
  simp only [if_neg h7]
  by_cases h8 : p = "pivot_current_time"
  · subst h8; simp
  simp only [if_neg h8]
  by_cases h9 : p = "pivot_last_selected_time"
  · subst h9; simp
  simp only [if_neg h9]
  by_cases h10 : p = "pivot_flip_curve_value"
  · subst h10; simp
  simp only [if_neg h10]
  by_cases h11 : p = "pivot_first_value"
  · subst h11; simp
  simp only [if_neg h11]
  by_cases h12 : p = "pivot_ramped_value"
  · subst h12; simp
  simp only [if_neg h12]
  by_cases h13 : p = "pivot_flip_zero_value"
  · subst h13; simp
  simp only [if_neg h13]
  simp

theorem effScale_idem (strat : String) (f : ℚ) :
    effScale strat (effScale strat f) = effScale strat f := by
  unfold effScale
  split_ifs <;> rfl

theorem pivotValue_host_congr (strat : String) (vals times : List ℚ) (h₁ h₂ : Host)
    (hc : h₁.currentTime = h₂.currentTime) (hlt : h₁.lastSelTime = h₂.lastSelTime)
    (hlv : h₁.lastSelValue = h₂.lastSelValue) :
    pivotValue strat vals times h₁ = pivotValue strat vals times h₂ := by
  unfold pivotValue
  rw [hc, hlt, hlv]

/-!  Trace bookkeeping lemmas.  -/

@[simp] theorem selReadCount_nil : selReadCount [] = 0 := rfl

@[simp] theorem selReadCount_append (a b : List HostCmd) :
    selReadCount (a ++ b) = selReadCount a + selReadCount b := by
  simp [selReadCount, List.filter_append]

@[simp] theorem warnCount_nil : warnCount [] = 0 := rfl

@[simp] theorem warnCount_append (a b : List HostCmd) :
    warnCount (a ++ b) = warnCount a + warnCount b := by
  simp [warnCount, List.filter_append]

@[simp] theorem mutCount_nil : mutCount [] = 0 := rfl

@[simp] theorem mutCount_append (a b : List HostCmd) :
    mutCount (a ++ b) = mutCount a + mutCount b := by
  simp [mutCount, List.filter_append]

@[simp] theorem timeKeyArgs_nil : timeKeyArgs [] = [] := rfl

@[simp] theorem timeKeyArgs_append (a b : List HostCmd) :
    timeKeyArgs (a ++ b) = timeKeyArgs a ++ timeKeyArgs b := by
  simp [timeKeyArgs, List.filterMap_append]

@[simp] theorem selReadCount_pivotTrace (strat : String) :
    selReadCount (pivotTrace strat) = 0 := by
  unfold pivotTrace
  split_ifs <;> rfl

@[simp] theorem timeKeyArgs_pivotTrace (strat : String) :
    timeKeyArgs (pivotTrace strat) = [] := by
  unfold pivotTrace
  split_ifs <;> rfl

/-!  Generic fold plumbing.  -/

theorem foldl_range_getD {β : Type} (l : List ℚ) (g : ℚ → β → β) (b : β) :
    (List.range l.length).foldl (fun acc i => g (l.getD i 0) acc) b
      = l.foldl (fun acc x => g x acc) b := by
  induction l generalizing b with
  | nil => rfl
  | cons a l ih =>
    rw [List.length_cons, List.range_succ_eq_map]
    simp only [List.foldl_cons, List.foldl_map, List.getD_cons_zero, List.getD_cons_succ]
    exact ih (g a b)

theorem map_range_getD (l : List ℚ) :
    (List.range l.length).map (fun i => l.getD i 0) = l := by
  induction l with
  | nil => rfl
  | cons a l ih =>
    rw [List.length_cons, List.range_succ_eq_map]
    simp only [List.map_cons, List.map_map, List.getD_cons_zero]
    have hf : ((fun i => (a :: l).getD i 0) ∘ Nat.succ) = fun i => l.getD i 0 := rfl
    rw [hf, ih]

/-!  Elementary facts about the per-key transforms.  -/

@[simp] theorem Key.scaleValueIfSel_time (p : Option ℚ) (s : ℚ) (k : Key) :
    (k.scaleValueIfSel p s).time = k.time := by
  unfold Key.scaleValueIfSel
  split_ifs <;> rfl

@[simp] theorem Key.scaleValueIfSel_selected (p : Option ℚ) (s : ℚ) (k : Key) :
    (k.scaleValueIfSel p s).selected = k.selected := by
  unfold Key.scaleValueIfSel
  split_ifs <;> rfl

@[simp] theorem Key.scaleValueAt_time (p : Option ℚ) (s t : ℚ) (k : Key) :
    (k.scaleValueAt p s t).time = k.time := by
  unfold Key.scaleValueAt
  split_ifs <;> rfl

@[simp] theorem Key.scaleValueAt_selected (p : Option ℚ) (s t : ℚ) (k : Key) :
    (k.scaleValueAt p s t).selected = k.selected := by
  unfold Key.scaleValueAt
  split_ifs <;> rfl

@[simp] theorem Key.scaleValueAtMem_nil (p : Option ℚ) (s : ℚ) (k : Key) :
    Key.scaleValueAtMem p s [] k = k := by
  unfold Key.scaleValueAtMem
  simp

@[simp] theorem map_scaleValueAtMem_nil (p : Option ℚ) (s : ℚ) (l : List Key) :
    l.map (Key.scaleValueAtMem p s []) = l := by
  induction l with
  | nil => rfl
  | cons k l ih => simp [ih]

@[simp] theorem Curve.valueScaled_name (p : Option ℚ) (s : ℚ) (c : Curve) :
    (c.valueScaled p s).name = c.name := rfl

/-- Scaling a key at one time and then at a set of times it does not
contain is scaling it at the enlarged set. -/
theorem Key.scaleValueAt_then_mem (p : Option ℚ) (s t : ℚ) (ts : List ℚ) (k : Key)
    (hnt : t ∉ ts) :
    Key.scaleValueAtMem p s ts (Key.scaleValueAt p s t k)
      = Key.scaleValueAtMem p s (t :: ts) k := by
  unfold Key.scaleValueAt Key.scaleValueAtMem
  by_cases hk : k.time = t
  · rw [if_pos hk]
    rw [if_neg (show ¬ ({ k with value := scaleAboutO p s k.value } : Key).time ∈ ts by
      simpa [hk] using hnt)]
    rw [if_pos (by simp [hk])]
  · rw [if_neg hk]
    by_cases hm : k.time ∈ ts
    · rw [if_pos hm, if_pos (List.mem_cons_of_mem t hm)]
    · rw [if_neg hm, if_neg (by simp [List.mem_cons, hk, hm])]

/-- Effect on the host of per-key value scaling folded over a duplicate-free
list of times: each key of each curve named `n` is scaled once if its time
occurs in the list. -/
theorem foldl_applyScaleValueKey (n : String) (p : Option ℚ) (s : ℚ) :
    ∀ (ts : List ℚ) (h : Host), ts.Nodup →
      ts.foldl (fun hh t => hh.applyScaleValueKey n p s t) h
        = { h with curves := h.curves.map (fun c =>
            if c.name = n then
              { c with keys := c.keys.map (Key.scaleValueAtMem p s ts) }
            else c) } := by
  intro ts
  induction ts with
  | nil =>
    intro h _
    simp only [List.foldl_nil]
    have hfix : ∀ c ∈ h.curves,
        (if c.name = n then { c with keys := c.keys.map (Key.scaleValueAtMem p s []) } else c)
          = c := by
      intro c _
      rw [map_scaleValueAtMem_nil]
      split_ifs <;> rfl
    rw [List.map_congr_left hfix, List.map_id']
  | cons t ts ih =>
    intro h hnd
    rw [List.foldl_cons, ih _ (List.nodup_cons.mp hnd).2]
    have hnt : t ∉ ts := (List.nodup_cons.mp hnd).1
    simp only [Host.applyScaleValueKey]
    congr 1
    rw [List.map_map]
    apply List.map_congr_left
    intro c _
    by_cases hcn : c.name = n
    · simp only [Function.comp_apply, if_pos hcn, List.map_map]
      congr 1
      apply List.map_congr_left
      intro k _
      exact Key.scaleValueAt_then_mem p s t ts k hnt
    · simp only [Function.comp_apply, if_neg hcn]

/-!  Named-curve lookup under distinct curve names.  -/

theorem filter_name_eq_single (l : List Curve) (c : Curve) (hc : c ∈ l)
    (hn : (l.map Curve.name).Nodup) :
    l.filter (fun d => d.name == c.name) = [c] := by
  induction l with
  | nil => cases hc
  | cons d l ih =>
    rw [List.map_cons, List.nodup_cons] at hn
    rcases List.mem_cons.mp hc with rfl | hcl
    · rw [List.filter_cons_of_pos (by simp)]
      have hnone : ∀ x ∈ l, ¬((fun d => d.name == c.name) x = true) := by
        intro x hx hbeq
        rw [beq_iff_eq] at hbeq
        exact hn.1 (hbeq ▸ List.mem_map_of_mem Curve.name hx)
      rw [List.filter_eq_nil_iff.mpr hnone]
    · have hd : (d.name == c.name) = false := by
        rw [beq_eq_false_iff_ne]
        intro hbeq
        exact hn.1 (hbeq ▸ List.mem_map_of_mem Curve.name hcl)
      rw [List.filter_cons, hd]
      simp only [Bool.false_eq_true, if_false]
      exact ih hcl hn.2

theorem namedCurves_self (h : Host) (c : Curve) (hc : c ∈ h.curves)
    (hn : (h.curves.map Curve.name).Nodup) : h.namedCurves c.name = [c] :=
  filter_name_eq_single h.curves c hc hn

theorem curveSelValues_self (h : Host) (c : Curve) (hc : c ∈ h.curves)
    (hn : (h.curves.map Curve.name).Nodup) : h.curveSelValues c.name = c.selValues := by
  unfold Host.curveSelValues
  rw [namedCurves_self h c hc hn]
  simp

theorem curveSelTimes_self (h : Host) (c : Curve) (hc : c ∈ h.curves)
    (hn : (h.curves.map Curve.name).Nodup) : h.curveSelTimes c.name = c.selTimes := by
  unfold Host.curveSelTimes
  rw [namedCurves_self h c hc hn]
  simp

theorem selTimes_nodup (c : Curve) (ht : (c.keys.map Key.time).Nodup) :
    c.selTimes.Nodup := by
  unfold Curve.selTimes Curve.selKeys
  exact List.Nodup.sublist ((List.filter_sublist c.keys).map (·.time)) ht

/-- On a curve whose key times are distinct, a key's time occurs among the
selected times exactly when the key itself is selected. -/
theorem mem_selTimes_iff (c : Curve) (ht : (c.keys.map Key.time).Nodup)
    (k : Key) (hk : k ∈ c.keys) : k.time ∈ c.selTimes ↔ k.selected = true := by
  constructor
  · intro hmem
    obtain ⟨k', hk', heq⟩ := List.mem_map.mp hmem
    have hk'keys : k' ∈ c.keys := List.mem_of_mem_filter hk'
    have hkk : k' = k := List.inj_on_of_nodup_map ht hk'keys hk heq
    have hsel := (List.mem_filter.mp hk').2
    rwa [hkk] at hsel
  · intro hsel
    exact List.mem_map.mpr ⟨k, List.mem_filter.mpr ⟨hk, hsel⟩, rfl⟩

/-- With distinct curve names and distinct key times, the selected times a
per-curve query returns are duplicate-free. -/
theorem curveSelTimes_nodup (h : Host) (n : String)
    (hn : (h.curves.map Curve.name).Nodup)
    (ht : ∀ c ∈ h.curves, (c.keys.map Key.time).Nodup) :
    (h.curveSelTimes n).Nodup := by
  unfold Host.curveSelTimes Host.namedCurves
  rcases hfe : h.curves.filter (fun c => c.name == n) with _ | ⟨c, l⟩
  · rw [hfe]
    simp
  · have hcmem : c ∈ h.curves := by
      have : c ∈ h.curves.filter (fun c => c.name == n) := by rw [hfe]; exact List.mem_cons_self c l
      exact List.mem_of_mem_filter this
    have hcn : c.name = n := by
      have : c ∈ h.curves.filter (fun c => c.name == n) := by rw [hfe]; exact List.mem_cons_self c l
      have := (List.mem_filter.mp this).2
      rwa [beq_iff_eq] at this
    have : h.curves.filter (fun d => d.name == c.name) = [c] :=
      filter_name_eq_single h.curves c hcmem hn
    rw [hcn] at this
    rw [hfe] at this
    injection this with _ hl
    subst hl
    rw [hfe]
    simp only [List.map_cons, List.map_nil, List.flatten_cons, List.flatten_nil,
      List.append_nil]
    exact selTimes_nodup c (ht c hcmem)

/-- The per-curve value and time queries return lists of equal length. -/
theorem curveSel_length (h : Host) (n : String) :
    (h.curveSelValues n).length = (h.curveSelTimes n).length := by
  unfold Host.curveSelValues Host.curveSelTimes
  rw [List.length_flatten, List.length_flatten, List.map_map, List.map_map]
  congr 1
  apply List.map_congr_left
  intro c _
  simp [Curve.selValues, Curve.selTimes]

/-!  The per-curve value-scaling step, characterised.  -/

theorem foldl_pmScaleValueKey (n : String) (p : Option ℚ) (s : ℚ) :
    ∀ (ts : List ℚ) (w : World),
      ts.foldl (fun wa t => pmScaleValueKey n p s t wa) w
        = { host := ts.foldl (fun hh t => hh.applyScaleValueKey n p s t) w.host,
            trace := w.trace ++ ts.map (fun t => HostCmd.scaleValueKey n p s t) } := by
  intro ts
  induction ts with
  | nil => intro w; simp
  | cons t ts ih =>
    intro w
    rw [List.foldl_cons, ih, List.foldl_cons]
    simp [pmScaleValueKey]

theorem foldl_range_pmScaleValueKey (n : String) (p : Option ℚ) (s : ℚ)
    (ts : List ℚ) (w : World) :
    (List.range ts.length).foldl (fun wa i => pmScaleValueKey n p s (ts.getD i 0) wa) w
      = ts.foldl (fun wa t => pmScaleValueKey n p s t wa) w :=
  foldl_range_getD ts (fun t wa => pmScaleValueKey n p s t wa) w

theorem Scalist.valueMultiStep_eq (sc : Scalist) (w : World) (n : String) :
    sc.valueMultiStep w n
      = ({ sc with key_values := w.host.curveSelValues n,
                   key_times := w.host.curveSelTimes n,
                   scale := effScale sc.pivot sc.scale },
         { host := (w.host.curveSelTimes n).foldl (fun hh t => hh.applyScaleValueKey n
               (pivotValue sc.pivot (w.host.curveSelValues n) (w.host.curveSelTimes n) w.host)
               (effScale sc.pivot sc.scale) t) w.host,
           trace := w.trace ++ [.querySel] ++ [.querySel] ++ pivotTrace sc.pivot
             ++ (w.host.curveSelTimes n).map (fun t => HostCmd.scaleValueKey n
                 (pivotValue sc.pivot (w.host.curveSelValues n) (w.host.curveSelTimes n) w.host)
                 (effScale sc.pivot sc.scale) t) }) := by
  unfold Scalist.valueMultiStep
  unfold pmQueryCurveValues pmQueryCurveTimes
  dsimp only
  rw [Scalist.get_pivot_eq]
  dsimp only
  rw [curveSel_length, foldl_range_pmScaleValueKey, foldl_pmScaleValueKey]

@[simp] theorem Key.scaleValueAtMem_time (p : Option ℚ) (s : ℚ) (ts : List ℚ) (k : Key) :
    (Key.scaleValueAtMem p s ts k).time = k.time := by
  unfold Key.scaleValueAtMem
  split_ifs <;> rfl

@[simp] theorem Key.scaleValueAtMem_selected (p : Option ℚ) (s : ℚ) (ts : List ℚ) (k : Key) :
    (Key.scaleValueAtMem p s ts k).selected = k.selected := by
  unfold Key.scaleValueAtMem
  split_ifs <;> rfl

theorem map_name_of_preserve (l : List Curve) (F : Curve → Curve)
    (hf : ∀ c, (F c).name = c.name) :
    (l.map F).map Curve.name = l.map Curve.name := by
  rw [List.map_map]
  apply List.map_congr_left
  intro c _
  exact hf c

theorem namedCurves_map_of_preserve (h : Host) (F : Curve → Curve)
    (hf : ∀ c, (F c).name = c.name) (n : String) :
    ({ h with curves := h.curves.map F } : Host).namedCurves n
      = (h.namedCurves n).map F := by
  unfold Host.namedCurves
  dsimp only
  rw [List.filter_map]
  congr 1
  apply List.filter_congr
  intro c _
  simp [Function.comp, hf]

/-- Scaling the keys whose times occur among the curve's selected times is
scaling its selected keys, provided the curve's key times are distinct. -/
theorem atMem_selTimes_eq_ifSel (c : Curve) (p : Option ℚ) (s : ℚ)
    (ht : (c.keys.map Key.time).Nodup) :
    c.keys.map (Key.scaleValueAtMem p s c.selTimes)
      = c.keys.map (Key.scaleValueIfSel p s) := by
  apply List.map_congr_left
  intro k hk
  unfold Key.scaleValueAtMem Key.scaleValueIfSel
  by_cases hsel : k.selected
  · rw [if_pos ((mem_selTimes_iff c ht k hk).mpr hsel), if_pos hsel]
  · rw [if_neg (fun hmem => hsel ((mem_selTimes_iff c ht k hk).mp hmem)),
      if_neg hsel]

/-- The `scale_keys_value_multi` loop, characterised.  With distinct curve
names and per-curve distinct key times, every curve whose name occurs in
the processed list has its selected keys scaled about a pivot computed
from that curve's own selected values and times (and the host scalar
state); every other curve is untouched. -/
theorem foldl_valueMultiStep (S : ℚ) :
    ∀ (ns : List String) (sc : Scalist) (w : World),
      ns.Nodup →
      ((w.host.curves.map Curve.name).Nodup) →
      (∀ c ∈ w.host.curves, (c.keys.map Key.time).Nodup) →
      effScale sc.pivot sc.scale = S →
      (ns.foldl (fun acc n => acc.1.valueMultiStep acc.2 n) (sc, w)).2.host
        = { w.host with curves := w.host.curves.map (fun c =>
            if c.name ∈ ns then
              c.valueScaled (pivotValue sc.pivot c.selValues c.selTimes w.host) S
            else c) } := by
  intro ns
  induction ns with
  | nil =>
    intro sc w _ _ _ _
    dsimp only [List.foldl_nil]
    have hfix : ∀ c ∈ w.host.curves,
        (if c.name ∈ ([] : List String) then
          c.valueScaled (pivotValue sc.pivot c.selValues c.selTimes w.host) S
        else c) = c := by
      intro c _
      simp
    rw [List.map_congr_left hfix, List.map_id']
  | cons n ns ih =>
    intro sc w hns hn ht hS
    have hts : (w.host.curveSelTimes n).Nodup := curveSelTimes_nodup w.host n hn ht
    rw [List.foldl_cons, Scalist.valueMultiStep_eq,
      foldl_applyScaleValueKey _ _ _ _ _ hts]
    have hGname : forall c : Curve,
        ((if c.name = n then
            { c with keys := c.keys.map (Key.scaleValueAtMem
                (pivotValue sc.pivot (w.host.curveSelValues n) (w.host.curveSelTimes n) w.host)
                (effScale sc.pivot sc.scale) (w.host.curveSelTimes n)) }
          else c) : Curve).name = c.name := by
      intro c
      split_ifs <;> rfl
    have hn' : (((w.host.curves.map (fun c =>
        if c.name = n then
          { c with keys := c.keys.map (Key.scaleValueAtMem
              (pivotValue sc.pivot (w.host.curveSelValues n) (w.host.curveSelTimes n) w.host)
              (effScale sc.pivot sc.scale) (w.host.curveSelTimes n)) }
        else c))).map Curve.name).Nodup := by
      rw [map_name_of_preserve _ _ hGname]
      exact hn
    have ht' : forall c2, c2 ∈ (w.host.curves.map (fun c =>
        if c.name = n then
          { c with keys := c.keys.map (Key.scaleValueAtMem
              (pivotValue sc.pivot (w.host.curveSelValues n) (w.host.curveSelTimes n) w.host)
              (effScale sc.pivot sc.scale) (w.host.curveSelTimes n)) }
        else c)) → ((c2.keys.map Key.time).Nodup) := by
      intro c2 hc2
      obtain ⟨c, hc, rfl⟩ := List.mem_map.mp hc2
      split_ifs with hcc
      · dsimp only
        rw [List.map_map,
          show (Key.time ∘ Key.scaleValueAtMem
              (pivotValue sc.pivot (w.host.curveSelValues n) (w.host.curveSelTimes n) w.host)
              (effScale sc.pivot sc.scale) (w.host.curveSelTimes n)) = Key.time from
            funext fun k => Key.scaleValueAtMem_time _ _ _ k]
        exact ht c hc
      · exact ht c hc
    rw [ih]
    · dsimp only
      congr 1
      rw [List.map_map]
      apply List.map_congr_left
      intro c hc
      dsimp only [Function.comp_apply]
      by_cases hcn : c.name = n
      · -- scaled by the head step, untouched afterwards
        have hcsv : w.host.curveSelValues n = c.selValues := by
          rw [← hcn]
          exact curveSelValues_self w.host c hc hn
        have hcst : w.host.curveSelTimes n = c.selTimes := by
          rw [← hcn]
          exact curveSelTimes_self w.host c hc hn
        rw [if_pos hcn, hcsv, hcst, atMem_selTimes_eq_ifSel c _ _ (ht c hc)]
        rw [if_neg (show ¬ (({ c with keys := c.keys.map (Key.scaleValueIfSel
            (pivotValue sc.pivot c.selValues c.selTimes w.host)
            (effScale sc.pivot sc.scale)) } : Curve).name ∈ ns) by
          show ¬ (c.name ∈ ns)
          rw [hcn]
          exact (List.nodup_cons.mp hns).1)]
        rw [if_pos (show c.name ∈ n :: ns by
          rw [hcn]
          exact List.mem_cons_self n ns)]
        rw [hS]
        rfl
      · rw [if_neg hcn]
        by_cases hmem : c.name ∈ ns
        · rw [if_pos hmem, if_pos (List.mem_cons_of_mem n hmem)]
          congr 1
        · rw [if_neg hmem, if_neg (show ¬ (c.name ∈ n :: ns) by
            intro hmm
            rcases List.mem_cons.mp hmm with h1 | h2
            · exact hcn h1
            · exact hmem h2)]
    · exact (List.nodup_cons.mp hns).2
    · exact hn'
    · exact ht'
    · rw [effScale_idem]
      exact hS

/-!  Unified (single-pivot) operations, characterised.  -/

theorem Scalist.scale_keys_value_eq (sc : Scalist) (w : World) :
    sc.scale_keys_value w
      = ({ sc with scale := effScale sc.pivot sc.scale },
         { host := w.host.applyScaleValueAll
             (pivotValue sc.pivot sc.key_values sc.key_times w.host)
             (effScale sc.pivot sc.scale),
           trace := w.trace ++ pivotTrace sc.pivot
             ++ [.scaleValueAll (pivotValue sc.pivot sc.key_values sc.key_times w.host)
                 (effScale sc.pivot sc.scale)] }) := by
  unfold Scalist.scale_keys_value
  dsimp only
  rw [Scalist.get_pivot_eq]
  rfl

theorem Scalist.scale_keys_time_eq (sc : Scalist) (w : World) :
    sc.scale_keys_time w
      = ({ sc with scale := effScale sc.pivot sc.scale },
         { host := (w.host.applyScaleTimeAll
             (pivotValue sc.pivot sc.key_values sc.key_times w.host)
             (effScale sc.pivot sc.scale)).applySnapAll,
           trace := w.trace ++ pivotTrace sc.pivot
             ++ [.scaleTimeAll (pivotValue sc.pivot sc.key_values sc.key_times w.host)
                 (effScale sc.pivot sc.scale)]
             ++ [.snapAll] }) := by
  unfold Scalist.scale_keys_time
  dsimp only
  rw [Scalist.get_pivot_eq]
  rfl

/-!  The selection seen through curve names.  -/

theorem selCurveNames_nodup (h : Host) (hn : (h.curves.map Curve.name).Nodup) :
    h.selCurveNames.Nodup := by
  unfold Host.selCurveNames
  exact List.Nodup.sublist ((List.filter_sublist h.curves).map (·.name)) hn

theorem mem_selCurveNames_iff (h : Host) (hn : (h.curves.map Curve.name).Nodup)
    (c : Curve) (hc : c ∈ h.curves) :
    c.name ∈ h.selCurveNames ↔ c.selKeys ≠ [] := by
  unfold Host.selCurveNames
  constructor
  · intro hmem
    obtain ⟨d, hd, hde⟩ := List.mem_map.mp hmem
    have hdmem : d ∈ h.curves := List.mem_of_mem_filter hd
    have hdq := (List.mem_filter.mp hd).2
    have hdc : d = c := List.inj_on_of_nodup_map hn hdmem hc hde
    subst hdc
    intro hnil
    rw [hnil] at hdq
    simp at hdq
  · intro hne
    refine List.mem_map.mpr ⟨c, List.mem_filter.mpr ⟨hc, ?_⟩, rfl⟩
    show (!c.selKeys.isEmpty) = true
    cases hsel : c.selKeys with
    | nil => exact absurd hsel hne
    | cons a l => rfl

/-- A curve with no selected keys is unchanged by selected-value scaling. -/
theorem valueScaled_of_no_sel (c : Curve) (hsel : c.selKeys = []) (p : Option ℚ) (s : ℚ) :
    c.valueScaled p s = c := by
  unfold Curve.valueScaled
  have hfix : ∀ k ∈ c.keys, Key.scaleValueIfSel p s k = k := by
    intro k hk
    unfold Key.scaleValueIfSel
    rw [if_neg (by
      intro htrue
      have : k ∈ c.selKeys := List.mem_filter.mpr ⟨hk, htrue⟩
      rw [hsel] at this
      cases this)]
  rw [List.map_congr_left hfix, List.map_id']

theorem flatten_map_eq_filter (l : List Curve) (g : Curve → List ℚ) (q : Curve → Bool)
    (hq : ∀ d, q d = false → g d = []) :
    (l.map g).flatten = ((l.filter q).map g).flatten := by
  induction l with
  | nil => rfl
  | cons d l ih =>
    cases hqd : q d with
    | true =>
      rw [List.map_cons, List.flatten_cons, List.filter_cons_of_pos hqd,
        List.map_cons, List.flatten_cons, ih]
    | false =>
      rw [List.map_cons, List.flatten_cons, hq d hqd, List.nil_append,
        List.filter_cons_of_neg (by rw [hqd]; exact Bool.false_ne_true), ih]

theorem eq_single_of_length_le_one {α : Type} (l : List α) (hl : l.length ≤ 1)
    (a : α) (ha : a ∈ l) : l = [a] := by
  cases l with
  | nil => cases ha
  | cons x xs =>
    cases xs with
    | nil =>
      rcases List.mem_singleton.mp ha with rfl
      rfl
    | cons y ys => simp at hl

/-- If at most one curve carries selected keys, the whole-selection value
query returns exactly that curve's selected values. -/
theorem allSelValues_of_single (h : Host) (hone : h.selCurveNames.length ≤ 1)
    (c : Curve) (hc : c ∈ h.curves) (hne : c.selKeys ≠ []) :
    h.allSelValues = c.selValues := by
  unfold Host.allSelValues
  rw [flatten_map_eq_filter h.curves Curve.selValues (fun d => !d.selKeys.isEmpty)
    (by
      intro d hd
      simp only [Bool.not_eq_false'] at hd
      unfold Curve.selValues
      rw [List.isEmpty_iff.mp hd]
      rfl)]
  have hlen : (h.curves.filter (fun d => !d.selKeys.isEmpty)).length ≤ 1 := by
    have : h.selCurveNames.length = (h.curves.filter (fun d => !d.selKeys.isEmpty)).length :=
      List.length_map _ _
    rw [this] at hone
    exact hone
  have hcf : c ∈ h.curves.filter (fun d => !d.selKeys.isEmpty) := by
    refine List.mem_filter.mpr ⟨hc, ?_⟩
    show (!c.selKeys.isEmpty) = true
    cases hsel : c.selKeys with
    | nil => exact absurd hsel hne
    | cons a l => rfl
  rw [eq_single_of_length_le_one _ hlen c hcf]
  simp

theorem allSelTimes_of_single (h : Host) (hone : h.selCurveNames.length ≤ 1)
    (c : Curve) (hc : c ∈ h.curves) (hne : c.selKeys ≠ []) :
    h.allSelTimes = c.selTimes := by
  unfold Host.allSelTimes
  rw [flatten_map_eq_filter h.curves Curve.selTimes (fun d => !d.selKeys.isEmpty)
    (by
      intro d hd
      simp only [Bool.not_eq_false'] at hd
      unfold Curve.selTimes
      rw [List.isEmpty_iff.mp hd]
      rfl)]
  have hlen : (h.curves.filter (fun d => !d.selKeys.isEmpty)).length ≤ 1 := by
    have : h.selCurveNames.length = (h.curves.filter (fun d => !d.selKeys.isEmpty)).length :=
      List.length_map _ _
    rw [this] at hone
    exact hone
  have hcf : c ∈ h.curves.filter (fun d => !d.selKeys.isEmpty) := by
    refine List.mem_filter.mpr ⟨hc, ?_⟩
    show (!c.selKeys.isEmpty) = true
    cases hsel : c.selKeys with
    | nil => exact absurd hsel hne
    | cons a l => rfl
  rw [eq_single_of_length_le_one _ hlen c hcf]
  simp

/-!  Scaling by the neutral factor 1 is the identity on the store.  -/

theorem scaleAboutO_one (p : Option ℚ) (x : ℚ) : scaleAboutO p 1 x = x := by
  cases p with
  | none => rfl
  | some q =>
    unfold scaleAboutO scaleAbout
    ring

theorem Key.scaleValueIfSel_one (p : Option ℚ) (k : Key) : Key.scaleValueIfSel p 1 k = k := by
  unfold Key.scaleValueIfSel
  split_ifs
  · rw [scaleAboutO_one]
  · rfl

theorem Key.scaleTimeIfSel_one (p : Option ℚ) (k : Key) : Key.scaleTimeIfSel p 1 k = k := by
  unfold Key.scaleTimeIfSel
  split_ifs
  · rw [scaleAboutO_one]
  · rfl

theorem Key.scaleValueAt_one (p : Option ℚ) (t : ℚ) (k : Key) : Key.scaleValueAt p 1 t k = k := by
  unfold Key.scaleValueAt
  split_ifs
  · rw [scaleAboutO_one]
  · rfl

theorem Key.scaleTimeAt_one (p : Option ℚ) (t : ℚ) (k : Key) : Key.scaleTimeAt p 1 t k = k := by
  unfold Key.scaleTimeAt
  split_ifs
  · rw [scaleAboutO_one]
  · rfl

theorem Host.applyScaleValueAll_one (h : Host) (p : Option ℚ) :
    h.applyScaleValueAll p 1 = h := by
  unfold Host.applyScaleValueAll
  have hfix : ∀ c ∈ h.curves, Curve.valueScaled p 1 c = c := by
    intro c _
    unfold Curve.valueScaled
    rw [List.map_congr_left (fun k _ => Key.scaleValueIfSel_one p k), List.map_id']
  rw [List.map_congr_left hfix, List.map_id']

theorem Host.applyScaleTimeAll_one (h : Host) (p : Option ℚ) :
    h.applyScaleTimeAll p 1 = h := by
  unfold Host.applyScaleTimeAll
  have hfix : ∀ c ∈ h.curves, Curve.timeScaled p 1 c = c := by
    intro c _
    unfold Curve.timeScaled
    rw [List.map_congr_left (fun k _ => Key.scaleTimeIfSel_one p k), List.map_id']
  rw [List.map_congr_left hfix, List.map_id']

theorem Host.applyScaleValueKey_one (h : Host) (n : String) (p : Option ℚ) (t : ℚ) :
    h.applyScaleValueKey n p 1 t = h := by
  unfold Host.applyScaleValueKey
  have hfix : ∀ c ∈ h.curves,
      (if c.name = n then { c with keys := c.keys.map (Key.scaleValueAt p 1 t) } else c) = c := by
    intro c _
    split_ifs
    · rw [List.map_congr_left (fun k _ => Key.scaleValueAt_one p t k), List.map_id']
    · rfl
  rw [List.map_congr_left hfix, List.map_id']

theorem Host.applyScaleTimeKey_one (h : Host) (n : String) (p : Option ℚ) (t : ℚ) :
    h.applyScaleTimeKey n p 1 t = h := by
  unfold Host.applyScaleTimeKey
  have hfix : ∀ c ∈ h.curves,
      (if c.name = n then { c with keys := c.keys.map (Key.scaleTimeAt p 1 t) } else c) = c := by
    intro c _
    split_ifs
    · rw [List.map_congr_left (fun k _ => Key.scaleTimeAt_one p t k), List.map_id']
    · rfl
  rw [List.map_congr_left hfix, List.map_id']

/-!  Snapping is idempotent and produces integer frames.  -/

theorem Key.snapIfSel_idem (k : Key) : k.snapIfSel.snapIfSel = k.snapIfSel := by
  unfold Key.snapIfSel
  by_cases hs : k.selected = true
  · simp only [if_pos hs, round_intCast]
  · simp only [if_neg hs]

theorem Host.applySnapAll_idem (h : Host) : h.applySnapAll.applySnapAll = h.applySnapAll := by
  unfold Host.applySnapAll
  dsimp only
  congr 1
  rw [List.map_map]
  apply List.map_congr_left
  intro c _
  dsimp only [Function.comp_apply]
  congr 1
  rw [List.map_map]
  apply List.map_congr_left
  intro k _
  exact Key.snapIfSel_idem k

theorem Host.applySnapAll_selected_int (h : Host) :
    ∀ c ∈ h.applySnapAll.curves, ∀ k ∈ c.keys, k.selected = true → ∃ z : ℤ, k.time = (z : ℚ) := by
  intro c hc k hk hsel
  unfold Host.applySnapAll at hc
  obtain ⟨c0, _, rfl⟩ := List.mem_map.mp hc
  obtain ⟨k0, _, rfl⟩ := List.mem_map.mp hk
  by_cases h0 : k0.selected
  · refine ⟨round k0.time, ?_⟩
    unfold Key.snapIfSel
    rw [if_pos h0]
  · exfalso
    unfold Key.snapIfSel at hsel
    rw [if_neg h0] at hsel
    exact h0 hsel

/-!  The per-key time-scaling step, characterised.  -/

theorem Scalist.timeMultiKeyStep_eq (n : String) (acc : Scalist × World) (t : ℚ) :
    Scalist.timeMultiKeyStep n acc t
      = ({ acc.1 with scale := effScale acc.1.pivot acc.1.scale },
         { host := acc.2.host.applyScaleTimeKey n
             (pivotValue acc.1.pivot acc.1.key_values acc.1.key_times acc.2.host)
             (effScale acc.1.pivot acc.1.scale) t,
           trace := acc.2.trace ++ pivotTrace acc.1.pivot
             ++ [.scaleTimeKey n
                 (pivotValue acc.1.pivot acc.1.key_values acc.1.key_times acc.2.host)
                 (effScale acc.1.pivot acc.1.scale) t] }) := by
  unfold Scalist.timeMultiKeyStep
  dsimp only
  rw [Scalist.get_pivot_eq]
  rfl

theorem effScale_of_ne (strat : String) (f : ℚ)
    (h1 : strat ≠ "pivot_flip_curve_value") (h2 : strat ≠ "pivot_flip_zero_value") :
    effScale strat f = f := by
  unfold effScale
  rw [if_neg h1, if_neg h2]

theorem foldl_timeMultiKeyStep_args (n : String) (ts : List ℚ) :
    ∀ (l : List ℕ) (acc : Scalist × World),
      timeKeyArgs ((l.foldl (fun a i => Scalist.timeMultiKeyStep n a (ts.getD i 0)) acc).2.trace)
        = timeKeyArgs acc.2.trace ++ l.map (fun i => ts.getD i 0) := by
  intro l
  induction l with
  | nil =>
    intro acc
    simp
  | cons i l ih =>
    intro acc
    rw [List.foldl_cons, ih, Scalist.timeMultiKeyStep_eq]
    dsimp only
    rw [timeKeyArgs_append, timeKeyArgs_append, timeKeyArgs_pivotTrace]
    simp [timeKeyArgs]

theorem foldl_timeMultiKeyStep_selReads (n : String) (ts : List ℚ) :
    ∀ (l : List ℕ) (acc : Scalist × World),
      selReadCount ((l.foldl (fun a i => Scalist.timeMultiKeyStep n a (ts.getD i 0)) acc).2.trace)
        = selReadCount acc.2.trace := by
  intro l
  induction l with
  | nil =>
    intro acc
    rfl
  | cons i l ih =>
    intro acc
    rw [List.foldl_cons, ih, Scalist.timeMultiKeyStep_eq]
    dsimp only
    rw [selReadCount_append, selReadCount_append, selReadCount_pivotTrace]
    simp [selReadCount, List.filter, HostCmd.isSelRead]

theorem foldl_timeMultiKeyStep_one (n : String) (ts : List ℚ) (strat : String)
    (h1 : strat ≠ "pivot_flip_curve_value") (h2 : strat ≠ "pivot_flip_zero_value") :
    ∀ (l : List ℕ) (sc : Scalist) (w : World), sc.pivot = strat → sc.scale = 1 →
      ((l.foldl (fun a i => Scalist.timeMultiKeyStep n a (ts.getD i 0)) (sc, w)).1 = sc)
      ∧ ((l.foldl (fun a i => Scalist.timeMultiKeyStep n a (ts.getD i 0)) (sc, w)).2.host
          = w.host) := by
  intro l
  induction l with
  | nil =>
    intro sc w _ _
    exact ⟨rfl, rfl⟩
  | cons i l ih =>
    intro sc w hp hs
    rw [List.foldl_cons, Scalist.timeMultiKeyStep_eq]
    dsimp only
    have hone : effScale sc.pivot sc.scale = 1 := by
      rw [hp, hs, effScale_of_ne strat 1 h1 h2]
    rw [hone]
    have hsc : ({ sc with scale := (1 : ℚ) } : Scalist) = sc := by
      rw [← hs]
    rw [hsc, Host.applyScaleTimeKey_one]
    exact ih sc _ hp hs

/-!  The per-curve time-scaling step.  -/

theorem Scalist.timeMultiStep_one (strat : String)
    (h1 : strat ≠ "pivot_flip_curve_value") (h2 : strat ≠ "pivot_flip_zero_value")
    (sc : Scalist) (w : World) (n : String)
    (hp : sc.pivot = strat) (hs : sc.scale = 1) :
    (sc.timeMultiStep w n).1.pivot = strat ∧ (sc.timeMultiStep w n).1.scale = 1
    ∧ (sc.timeMultiStep w n).2.host = w.host.applySnapAll := by
  unfold Scalist.timeMultiStep
  dsimp only [pmQueryCurveTimes, pmSnapAll]
  split_ifs with hlt
  · obtain ⟨hfst, hhost⟩ := foldl_timeMultiKeyStep_one n (w.host.curveSelTimes n) strat h1 h2
      ((List.range (w.host.curveSelTimes n).length).reverse)
      { sc with key_times := w.host.curveSelTimes n }
      { host := w.host, trace := w.trace ++ [HostCmd.querySel] } hp hs
    refine ⟨?_, ?_, ?_⟩
    · rw [hfst]
      exact hp
    · rw [hfst]
      exact hs
    · rw [hhost]
  · obtain ⟨hfst, hhost⟩ := foldl_timeMultiKeyStep_one n (w.host.curveSelTimes n) strat h1 h2
      (List.range (w.host.curveSelTimes n).length)
      { sc with key_times := w.host.curveSelTimes n }
      { host := w.host, trace := w.trace ++ [HostCmd.querySel] } hp hs
    refine ⟨?_, ?_, ?_⟩
    · rw [hfst]
      exact hp
    · rw [hfst]
      exact hs
    · rw [hhost]

theorem Scalist.timeMultiStep_selReads (sc : Scalist) (w : World) (n : String) :
    selReadCount ((sc.timeMultiStep w n).2.trace) = selReadCount w.trace + 1 := by
  unfold Scalist.timeMultiStep
  dsimp only [pmQueryCurveTimes, pmSnapAll]
  split_ifs with hlt
  · rw [selReadCount_append, foldl_timeMultiKeyStep_selReads]
    dsimp only
    rw [selReadCount_append]
    simp [selReadCount, List.filter, HostCmd.isSelRead]
  · rw [selReadCount_append, foldl_timeMultiKeyStep_selReads]
    dsimp only
    rw [selReadCount_append]
    simp [selReadCount, List.filter, HostCmd.isSelRead]

theorem Scalist.timeMultiStep_lastTime_args (sc : Scalist) (w : World) (n : String)
    (hp : sc.pivot = "pivot_last_time") :
    timeKeyArgs ((sc.timeMultiStep w n).2.trace)
      = timeKeyArgs w.trace ++ (w.host.curveSelTimes n).reverse := by
  unfold Scalist.timeMultiStep
  dsimp only [pmQueryCurveTimes, pmSnapAll]
  rw [if_pos (show ({ sc with key_times := w.host.curveSelTimes n } : Scalist).pivot
    = "pivot_last_time" from hp)]
  rw [timeKeyArgs_append, foldl_timeMultiKeyStep_args]
  dsimp only
  rw [timeKeyArgs_append, List.map_reverse, map_range_getD]
  simp [timeKeyArgs]

/-!  The per-curve time-scaling loop.  -/

theorem foldl_timeMultiStep_one (strat : String)
    (h1 : strat ≠ "pivot_flip_curve_value") (h2 : strat ≠ "pivot_flip_zero_value") :
    ∀ (ns : List String) (sc : Scalist) (w : World),
      sc.pivot = strat → sc.scale = 1 → ns ≠ [] →
      (ns.foldl (fun acc n => acc.1.timeMultiStep acc.2 n) (sc, w)).2.host
        = w.host.applySnapAll := by
  intro ns
  induction ns with
  | nil =>
    intro sc w _ _ hne
    exact absurd rfl hne
  | cons n ns ih =>
    intro sc w hp hs _
    rw [List.foldl_cons]
    by_cases hne : ns = []
    · subst hne
      dsimp only [List.foldl_nil]
      exact (Scalist.timeMultiStep_one strat h1 h2 sc w n hp hs).2.2
    · obtain ⟨hp', hs', hh'⟩ := Scalist.timeMultiStep_one strat h1 h2 sc w n hp hs
      have hrec := ih (sc.timeMultiStep w n).1 (sc.timeMultiStep w n).2 hp' hs' hne
      rw [Prod.mk.eta] at hrec
      rw [hrec, hh', Host.applySnapAll_idem]

theorem Scalist.timeMultiStep_snd_eq_snap (sc : Scalist) (w : World) (n : String) :
    ∃ w', (sc.timeMultiStep w n).2 = pmSnapAll w' := by
  unfold Scalist.timeMultiStep
  dsimp only
  split_ifs <;> exact ⟨_, rfl⟩

theorem foldl_timeMultiStep_snap :
    ∀ (ns : List String) (sc : Scalist) (w : World), ns ≠ [] →
      ∃ w', (ns.foldl (fun acc n => acc.1.timeMultiStep acc.2 n) (sc, w)).2 = pmSnapAll w' := by
  intro ns
  induction ns with
  | nil =>
    intro sc w hne
    exact absurd rfl hne
  | cons n ns ih =>
    intro sc w _
    rw [List.foldl_cons]
    by_cases hne : ns = []
    · subst hne
      dsimp only [List.foldl_nil]
      exact Scalist.timeMultiStep_snd_eq_snap sc w n
    · obtain ⟨w', hw'⟩ := ih (sc.timeMultiStep w n).1 (sc.timeMultiStep w n).2 hne
      rw [Prod.mk.eta] at hw'
      exact ⟨w', hw'⟩

theorem foldl_timeMultiStep_selReads :
    ∀ (ns : List String) (sc : Scalist) (w : World),
      selReadCount ((ns.foldl (fun acc n => acc.1.timeMultiStep acc.2 n) (sc, w)).2.trace)
        = selReadCount w.trace + ns.length := by
  intro ns
  induction ns with
  | nil =>
    intro sc w
    rfl
  | cons n ns ih =>
    intro sc w
    rw [List.foldl_cons]
    have hrec := ih (sc.timeMultiStep w n).1 (sc.timeMultiStep w n).2
    rw [Prod.mk.eta] at hrec
    rw [hrec, Scalist.timeMultiStep_selReads]
    rw [List.length_cons]
    omega

/-!  The per-curve value-scaling loop: neutral factor and trace counts.  -/

theorem foldl_applyScaleValueKey_one (n : String) (p : Option ℚ) :
    ∀ (ts : List ℚ) (h : Host),
      ts.foldl (fun hh t => hh.applyScaleValueKey n p 1 t) h = h := by
  intro ts
  induction ts with
  | nil =>
    intro h
    rfl
  | cons t ts ih =>
    intro h
    rw [List.foldl_cons, Host.applyScaleValueKey_one]
    exact ih h

theorem foldl_valueMultiStep_one (strat : String)
    (h1 : strat ≠ "pivot_flip_curve_value") (h2 : strat ≠ "pivot_flip_zero_value") :
    ∀ (ns : List String) (sc : Scalist) (w : World),
      sc.pivot = strat → sc.scale = 1 →
      (ns.foldl (fun acc n => acc.1.valueMultiStep acc.2 n) (sc, w)).2.host = w.host := by
  intro ns
  induction ns with
  | nil =>
    intro sc w _ _
    rfl
  | cons n ns ih =>
    intro sc w hp hs
    rw [List.foldl_cons, Scalist.valueMultiStep_eq]
    have hone : effScale sc.pivot sc.scale = 1 := by
      rw [hp, hs, effScale_of_ne strat 1 h1 h2]
    rw [hone, foldl_applyScaleValueKey_one]
    exact ih _ _ hp rfl

theorem selReadCount_cons_of_not (c : HostCmd) (tr : List HostCmd)
    (hc : c.isSelRead = false) : selReadCount (c :: tr) = selReadCount tr := by
  unfold selReadCount
  rw [List.filter_cons_of_neg (by rw [hc]; exact Bool.false_ne_true)]

@[simp] theorem selReadCount_one_scaleValueAll (p : Option ℚ) (s : ℚ) :
    selReadCount [HostCmd.scaleValueAll p s] = 0 := rfl

@[simp] theorem selReadCount_one_scaleTimeAll (p : Option ℚ) (s : ℚ) :
    selReadCount [HostCmd.scaleTimeAll p s] = 0 := rfl

@[simp] theorem selReadCount_one_snapAll : selReadCount [HostCmd.snapAll] = 0 := rfl

theorem selReadCount_map_scaleValueKey (n : String) (p : Option ℚ) (s : ℚ) (ts : List ℚ) :
    selReadCount (ts.map (fun t => HostCmd.scaleValueKey n p s t)) = 0 := by
  induction ts with
  | nil => rfl
  | cons t ts ih =>
    rw [List.map_cons]
    rw [show selReadCount (HostCmd.scaleValueKey n p s t
      :: ts.map (fun t => HostCmd.scaleValueKey n p s t))
      = selReadCount (ts.map (fun t => HostCmd.scaleValueKey n p s t)) from rfl]
    exact ih

theorem foldl_valueMultiStep_selReads :
    ∀ (ns : List String) (sc : Scalist) (w : World),
      selReadCount ((ns.foldl (fun acc n => acc.1.valueMultiStep acc.2 n) (sc, w)).2.trace)
        = selReadCount w.trace + 2 * ns.length := by
  intro ns
  induction ns with
  | nil =>
    intro sc w
    simp
  | cons n ns ih =>
    intro sc w
    rw [List.foldl_cons, Scalist.valueMultiStep_eq, ih]
    dsimp only
    rw [selReadCount_append, selReadCount_append, selReadCount_append, selReadCount_append,
      selReadCount_pivotTrace, selReadCount_map_scaleValueKey]
    rw [List.length_cons]
    rw [show selReadCount [HostCmd.querySel] = 1 from rfl]
    omega

theorem Scalist.scale_keys_value_selReads (sc : Scalist) (w : World) :
    selReadCount ((sc.scale_keys_value w).2.trace) = selReadCount w.trace := by
  rw [Scalist.scale_keys_value_eq]
  dsimp only
  rw [selReadCount_append, selReadCount_append, selReadCount_pivotTrace,
    selReadCount_one_scaleValueAll]
  omega

theorem Scalist.scale_keys_time_selReads (sc : Scalist) (w : World) :
    selReadCount ((sc.scale_keys_time w).2.trace) = selReadCount w.trace := by
  rw [Scalist.scale_keys_time_eq]
  dsimp only
  rw [selReadCount_append, selReadCount_append, selReadCount_append, selReadCount_pivotTrace,
    selReadCount_one_scaleTimeAll, selReadCount_one_snapAll]
  omega

/-!  Value-axis operations never snap and never move key times.  -/

/-- The time grid of the store: every curve's list of key times. -/
def Host.keyTimes (h : Host) : List (List ℚ) :=
  h.curves.map (fun c => c.keys.map Key.time)

theorem applyScaleValueAll_keyTimes (h : Host) (p : Option ℚ) (s : ℚ) :
    (h.applyScaleValueAll p s).keyTimes = h.keyTimes := by
  unfold Host.keyTimes Host.applyScaleValueAll
  dsimp only
  rw [List.map_map]
  apply List.map_congr_left
  intro c _
  dsimp only [Function.comp_apply]
  unfold Curve.valueScaled
  dsimp only
  rw [List.map_map]
  apply List.map_congr_left
  intro k _
  exact Key.scaleValueIfSel_time p s k

theorem applyScaleValueKey_keyTimes (h : Host) (n : String) (p : Option ℚ) (s t : ℚ) :
    (h.applyScaleValueKey n p s t).keyTimes = h.keyTimes := by
  unfold Host.keyTimes Host.applyScaleValueKey
  dsimp only
  rw [List.map_map]
  apply List.map_congr_left
  intro c _
  dsimp only [Function.comp_apply]
  split_ifs
  · dsimp only
    rw [List.map_map]
    apply List.map_congr_left
    intro k _
    exact Key.scaleValueAt_time p s t k
  · rfl

theorem foldl_applyScaleValueKey_keyTimes (n : String) (p : Option ℚ) (s : ℚ) :
    ∀ (ts : List ℚ) (h : Host),
      (ts.foldl (fun hh t => hh.applyScaleValueKey n p s t) h).keyTimes = h.keyTimes := by
  intro ts
  induction ts with
  | nil =>
    intro h
    rfl
  | cons t ts ih =>
    intro h
    rw [List.foldl_cons, ih, applyScaleValueKey_keyTimes]

theorem foldl_valueMultiStep_keyTimes :
    ∀ (ns : List String) (sc : Scalist) (w : World),
      (ns.foldl (fun acc n => acc.1.valueMultiStep acc.2 n) (sc, w)).2.host.keyTimes
        = w.host.keyTimes := by
  intro ns
  induction ns with
  | nil =>
    intro sc w
    rfl
  | cons n ns ih =>
    intro sc w
    rw [List.foldl_cons, Scalist.valueMultiStep_eq, ih]
    dsimp only
    rw [foldl_applyScaleValueKey_keyTimes]

theorem snapAll_not_mem_pivotTrace (strat : String) :
    HostCmd.snapAll ∉ pivotTrace strat := by
  unfold pivotTrace
  split_ifs <;> simp

theorem snapAll_not_mem_map_scaleValueKey (n : String) (p : Option ℚ) (s : ℚ) (ts : List ℚ) :
    HostCmd.snapAll ∉ ts.map (fun t => HostCmd.scaleValueKey n p s t) := by
  intro hmem
  obtain ⟨t, _, heq⟩ := List.mem_map.mp hmem
  exact HostCmd.noConfusion heq

theorem foldl_valueMultiStep_no_snap :
    ∀ (ns : List String) (sc : Scalist) (w : World), HostCmd.snapAll ∉ w.trace →
      HostCmd.snapAll ∉ (ns.foldl (fun acc n => acc.1.valueMultiStep acc.2 n) (sc, w)).2.trace := by
  intro ns
  induction ns with
  | nil =>
    intro sc w hw
    exact hw
  | cons n ns ih =>
    intro sc w hw
    rw [List.foldl_cons, Scalist.valueMultiStep_eq]
    apply ih
    dsimp only
    intro hmem
    rcases List.mem_append.mp hmem with hmem | hmem
    · rcases List.mem_append.mp hmem with hmem | hmem
      · rcases List.mem_append.mp hmem with hmem | hmem
        · rcases List.mem_append.mp hmem with hmem | hmem
          · exact hw hmem
          · simp at hmem
        · simp at hmem
      · exact snapAll_not_mem_pivotTrace _ hmem
    · exact snapAll_not_mem_map_scaleValueKey _ _ _ _ hmem

theorem Scalist.scale_keys_value_no_snap (sc : Scalist) (w : World)
    (hw : HostCmd.snapAll ∉ w.trace) :
    HostCmd.snapAll ∉ (sc.scale_keys_value w).2.trace := by
  rw [Scalist.scale_keys_value_eq]
  dsimp only
  intro hmem
  rcases List.mem_append.mp hmem with hmem | hmem
  · rcases List.mem_append.mp hmem with hmem | hmem
    · exact hw hmem
    · exact snapAll_not_mem_pivotTrace _ hmem
  · rcases List.mem_singleton.mp hmem with heq
    exact HostCmd.noConfusion heq

/-!  Strategies whose pivot depends only on the selection data.  -/

/-- The pivot strategies whose pivot is a function of the selected values
and times alone (no playback cursor, no host-tracked last-selected key). -/
def data_local_strategies : List String :=
  ["pivot_zero_value", "pivot_highest_value", "pivot_lowest_value",
   "pivot_middle_value", "pivot_first_time", "pivot_last_time",
   "pivot_flip_curve_value", "pivot_first_value", "pivot_ramped_value",
   "pivot_flip_zero_value"]

/-- The pivot, as a function of the selection data alone, for the
data-local strategies. -/
def localPivot (strat : String) (vals times : List ℚ) : Option ℚ :=
  if strat = "pivot_zero_value" then some 0
  else if strat = "pivot_highest_value" then vals.max?
  else if strat = "pivot_lowest_value" then vals.min?
  else if strat = "pivot_middle_value" then middleOf vals
  else if strat = "pivot_first_time" then times.min?
  else if strat = "pivot_last_time" then times.max?
  else if strat = "pivot_flip_curve_value" then middleOf vals
  else if strat = "pivot_first_value" then vals.head?
  else if strat = "pivot_ramped_value" then none
  else if strat = "pivot_flip_zero_value" then some 0
  else none

theorem pivotValue_eq_localPivot (strat : String) (hmem : strat ∈ data_local_strategies)
    (vals times : List ℚ) (h : Host) :
    pivotValue strat vals times h = localPivot strat vals times := by
  fin_cases hmem <;> rfl

/-- A nonempty selection always yields at least one selected curve name. -/
theorem selCurveNames_ne_nil (h : Host) (hsel : h.allSelTimes ≠ []) :
    h.selCurveNames ≠ [] := by
  intro hnil
  apply hsel
  unfold Host.selCurveNames at hnil
  have hfil : h.curves.filter (fun c => !c.selKeys.isEmpty) = [] :=
    List.map_eq_nil_iff.mp hnil
  unfold Host.allSelTimes
  rw [List.flatten_eq_nil_iff]
  intro l hl
  obtain ⟨c, hc, rfl⟩ := List.mem_map.mp hl
  have hq := List.filter_eq_nil_iff.mp hfil c hc
  have hke : c.selKeys = [] := by
    cases hk : c.selKeys with
    | nil => rfl
    | cons a l' =>
      exfalso
      apply hq
      rw [hk]
      rfl
  unfold Curve.selTimes
  rw [hke]
  rfl

/-!  Concrete stores for the examples and counterexamples.  The rational
arithmetic in the embedding must evaluate on literal inputs, so within
this section the standard-library rational operations are restored to
their ordinary reducibility. -/

section ConcreteExamples

attribute [local semireducible] Rat.add Rat.mul Rat.sub Rat.inv

/-- A selected keyframe. -/
def selKey (t v : ℚ) : Key := { time := t, value := v, selected := true }

/-- One curve named "a" with selected keys at frames 10, 20, 30 (the
spec's worked example for last-time per-curve scaling). -/
def c1ExampleHost : Host :=
  { curves := [{ name := "a", keys := [selKey 10 0, selKey 20 1, selKey 30 2] }],
    currentTime := 0, lastSelTime := 0, lastSelValue := 0 }

/-- Per-curve time scaling of the example with last-time pivot, factor 2. -/
def c1Run : World :=
  let r := Scalist.init "pivot_last_time" 2 "scale_keys_time_multi" ⟨c1ExampleHost, []⟩
  (r.1.scale_keys_time_multi r.2).2

/-- C1 counterexample: on the curve with selected times [10, 20, 30] and
factor 2.0, descending per-key scaling moves the key at 20 onto the
not-yet-scaled key at 10; both then scale together, so the
scaled-then-snapped times are [-10, -10, 30], not [-10, 10, 30] as the
claim states. -/
theorem c1_counterexample :
    c1Run.host.curveTimes "a" = [-10, -10, 30]
    ∧ ¬ c1Run.host.curveTimes "a" = ([-10, 10, 30] : List ℚ) := by
  constructor
  · decide
  · decide

/-- C1 amended: with the last-time pivot each curve's selected keys are
scaled one at a time in descending snapshot-time order (the per-key scale
commands are issued for the curve's selected times in reverse); on the
example [10, 20, 30] with factor 2.0 the commands target 30, 20, 10 in
that order, but the key scaled to time 10 collides with the unscaled key
at 10 and the final times are [-10, -10, 30], not [-10, 10, 30]. -/
theorem c1_amended :
    (∀ (f : ℚ) (ty : String) (h : Host) (n : String),
      timeKeyArgs (((Scalist.init "pivot_last_time" f ty ⟨h, []⟩).1.timeMultiStep
          (Scalist.init "pivot_last_time" f ty ⟨h, []⟩).2 n).2.trace)
        = (h.curveSelTimes n).reverse)
    ∧ timeKeyArgs c1Run.trace = [30, 20, 10]
    ∧ c1Run.host.curveTimes "a" = [-10, -10, 30] := by
  refine ⟨?_, by decide, by decide⟩
  intro f ty h n
  rw [Scalist.timeMultiStep_lastTime_args
    (Scalist.init "pivot_last_time" f ty ⟨h, []⟩).1
    (Scalist.init "pivot_last_time" f ty ⟨h, []⟩).2 n rfl]
  rfl

/-- C2: the Selection Guard accepts exactly when at least 2 keys are
selected, or at least 1 key is selected and the strategy is one of the
three single-key exceptions (zero-value, current-time, zero-flip); in
particular a size-1 selection is rejected for middle-value and accepted
for those three. -/
theorem c2_selection_guard (pivot : String) (w : World) :
    (check_for_selected_keys pivot w).1 = true
      ↔ (2 ≤ w.host.allSelTimes.length
          ∨ (1 ≤ w.host.allSelTimes.length ∧ pivot ∈ single_key_exceptions)) := by
  unfold check_for_selected_keys pmQuerySelTimes
  dsimp only
  split_ifs with hge hex
  · exact iff_of_true rfl (Or.inl hge)
  · exact iff_of_true rfl (Or.inr ⟨hex.1, hex.2⟩)
  · refine iff_of_false (by simp) ?_
    rintro (hc | hc)
    · exact hge hc
    · exact hex hc

/-- One curve with a single selected key, for observing selection reads. -/
def c3ExampleHost : Host :=
  { curves := [{ name := "a", keys := [selKey 0 2] }],
    currentTime := 0, lastSelTime := 0, lastSelValue := 0 }

/-- Per-curve value scaling run from a world whose trace starts empty
after construction, so every selection read in the trace happened after
the constructor's snapshot. -/
def c3Run : World :=
  let r := Scalist.init "pivot_middle_value" 2 "scale_keys_value_multi" ⟨c3ExampleHost, []⟩
  (r.1.scale_keys_value_multi ⟨c3ExampleHost, []⟩).2

/-- C3 counterexample: the per-curve value operation itself performs two
host selection reads (the curve's values and times are re-queried), so
the engine does re-query host selection state after construction. -/
theorem c3_counterexample :
    selReadCount c3Run.trace = 2 ∧ ¬ selReadCount c3Run.trace = 0 := by
  constructor
  · decide
  · decide

/-- C3 amended: the snapshot is captured once by the constructor and the
unified operations issue no further selection reads, but each per-curve
operation re-reads the host selection mid-operation: two reads per curve
for per-curve value scaling (values and times) and one read per curve for
per-curve time scaling. -/
theorem c3_amended :
    (∀ (sc : Scalist) (w : World),
        selReadCount ((sc.scale_keys_value w).2.trace) = selReadCount w.trace)
    ∧ (∀ (sc : Scalist) (w : World),
        selReadCount ((sc.scale_keys_time w).2.trace) = selReadCount w.trace)
    ∧ (∀ (sc : Scalist) (w : World),
        selReadCount ((sc.scale_keys_value_multi w).2.trace)
          = selReadCount w.trace + 2 * sc.curves.length)
    ∧ (∀ (sc : Scalist) (w : World),
        selReadCount ((sc.scale_keys_time_multi w).2.trace)
          = selReadCount w.trace + sc.curves.length) :=
  ⟨Scalist.scale_keys_value_selReads, Scalist.scale_keys_time_selReads,
   fun sc w => foldl_valueMultiStep_selReads sc.curves sc w,
   fun sc w => foldl_timeMultiStep_selReads sc.curves sc w⟩

/-- C10: the ramped-value strategy is a key of the dispatch table, its
pivot computation returns no value (the Python body is `pass`), and a
value-scale operation invoked with it still issues the host transform
request with that missing pivot instead of failing at dispatch. -/
theorem c10_ramped_strategy (h : Host) (f : ℚ) (ty : String) :
    "pivot_ramped_value" ∈ pivot_switcher_keys
    ∧ ((Scalist.init "pivot_ramped_value" f ty ⟨h, []⟩).1.get_pivot
        (Scalist.init "pivot_ramped_value" f ty ⟨h, []⟩).2).1 = none
    ∧ ((Scalist.init "pivot_ramped_value" f ty ⟨h, []⟩).1.scale_keys_value
        (Scalist.init "pivot_ramped_value" f ty ⟨h, []⟩).2).2.trace
      = [HostCmd.querySel, HostCmd.querySel, HostCmd.querySel,
         HostCmd.scaleValueAll none f] := by
  refine ⟨by decide, rfl, rfl⟩

/-- A curve with selected keys on subframe times 3/10 and 6/10. -/
def c4CurveD : Curve := { name := "d", keys := [selKey (3/10) 0, selKey (6/10) 1] }

/-- The subframe curve alone. -/
def c4HostA : Host :=
  { curves := [c4CurveD], currentTime := 0, lastSelTime := 0, lastSelValue := 0 }

/-- An integer-time curve processed before the subframe curve. -/
def c4HostB : Host :=
  { curves := [{ name := "e", keys := [selKey 5 0] }, c4CurveD],
    currentTime := 0, lastSelTime := 0, lastSelValue := 0 }

/-- Per-curve time scaling of the subframe curve alone (first-time pivot,
factor 2). -/
def c4RunA : World :=
  let r := Scalist.init "pivot_first_time" 2 "scale_keys_time_multi" ⟨c4HostA, []⟩
  (r.1.scale_keys_time_multi r.2).2

/-- The same request on the store that also holds curve "e". -/
def c4RunB : World :=
  let r := Scalist.init "pivot_first_time" 2 "scale_keys_time_multi" ⟨c4HostB, []⟩
  (r.1.scale_keys_time_multi r.2).2

/-- C4 counterexample: curve "d" carries the same selected keys (times
3/10 and 6/10) in both stores, but its final times under the identical
per-curve time request differ with curve "e" present ([0, 2] instead of
[0, 1]): the snap issued after curve "e" rounds every selected key in the
store, moving curve "d"'s keys before they are scaled, so one curve's
processing does affect another curve's transform. -/
theorem c4_counterexample :
    c4RunA.host.curveTimes "d" = [0, 1]
    ∧ c4RunB.host.curveTimes "d" = [0, 2]
    ∧ ¬ c4RunB.host.curveTimes "d" = c4RunA.host.curveTimes "d" :=
  ⟨by decide, by decide, by decide⟩

/-- C4 amended: in per-curve *value* operations with a data-local pivot
strategy the independence holds: each processed curve's new state is its
old state scaled about a pivot computed from only that curve's selected
values and times, and unprocessed curves are untouched.  Per-curve *time*
operations break independence because the snap issued after each curve
rounds every selected key in the store (see the counterexample), and the
host-state strategies (last-selected, current-time) read global host
state rather than the curve's subset. -/
theorem c4_amended (sc : Scalist) (w : World)
    (hns : sc.curves.Nodup)
    (hnd : (w.host.curves.map Curve.name).Nodup)
    (ht : ∀ c ∈ w.host.curves, (c.keys.map Key.time).Nodup)
    (hp : sc.pivot ∈ data_local_strategies) :
    (sc.scale_keys_value_multi w).2.host
      = { w.host with curves := w.host.curves.map (fun c =>
          if c.name ∈ sc.curves then
            c.valueScaled (localPivot sc.pivot c.selValues c.selTimes)
              (effScale sc.pivot sc.scale)
          else c) } := by
  unfold Scalist.scale_keys_value_multi
  rw [foldl_valueMultiStep (effScale sc.pivot sc.scale) sc.curves sc w hns hnd ht rfl]
  dsimp only
  congr 1
  apply List.map_congr_left
  intro c _
  split_ifs
  · rw [pivotValue_eq_localPivot sc.pivot hp]
  · rfl

/-- Two curves with distinct names and distinct key times, for exercising
the per-curve value characterisation. -/
def c4WHost : Host :=
  { curves := [{ name := "a", keys := [selKey 0 0, selKey 1 2] },
               { name := "b", keys := [selKey 0 10, selKey 1 14] }],
    currentTime := 0, lastSelTime := 0, lastSelValue := 0 }

/-- The object and world after construction over that store. -/
def c4WS : Scalist :=
  (Scalist.init "pivot_middle_value" 2 "scale_keys_value_multi" ⟨c4WHost, []⟩).1

def c4WW : World :=
  (Scalist.init "pivot_middle_value" 2 "scale_keys_value_multi" ⟨c4WHost, []⟩).2

/-- The amended C4 statement holds on a concrete two-curve store. -/
theorem c4_amended_witness :
    c4WS.curves.Nodup
    ∧ (c4WW.host.curves.map Curve.name).Nodup
    ∧ (∀ c ∈ c4WW.host.curves, (c.keys.map Key.time).Nodup)
    ∧ c4WS.pivot ∈ data_local_strategies
    ∧ (c4WS.scale_keys_value_multi c4WW).2.host
      = { c4WW.host with curves := c4WW.host.curves.map (fun c =>
          if c.name ∈ c4WS.curves then
            c.valueScaled (localPivot c4WS.pivot c.selValues c.selTimes)
              (effScale c4WS.pivot c4WS.scale)
          else c) } :=
  ⟨by decide, by decide, by decide, by decide,
   c4_amended c4WS c4WW (by decide) (by decide) (by decide) (by decide)⟩

/-- Unified time scaling of the C1 example store (last-time pivot,
factor 2): one batched transform, then one snap. -/
def c5RunUni : World :=
  let r := Scalist.init "pivot_last_time" 2 "scale_keys_time" ⟨c1ExampleHost, []⟩
  (r.1.scale_keys_time r.2).2

/-- C5 counterexample: the whole selection lies on the single curve "a"
(times [10, 20, 30]), yet with the last-time pivot and factor 2.0 the
unified time mode produces [-10, 10, 30] while the per-curve time mode of
the same axis produces [-10, -10, 30]: per-key scaling collides the key
moved to time 10 with the unscaled key at 10, so the two modes differ
even on a single-curve selection. -/
theorem c5_counterexample :
    c5RunUni.host.curveTimes "a" = [-10, 10, 30]
    ∧ c1Run.host.curveTimes "a" = [-10, -10, 30]
    ∧ ¬ c5RunUni.host.curveTimes "a" = c1Run.host.curveTimes "a" :=
  ⟨by decide, by decide, by decide⟩

/-- C5 amended: the equivalence does hold on the *value* axis: when at
most one curve carries selected keys, unified value scaling and per-curve
value scaling leave the host in the same state (for every pivot strategy
and factor).  On the *time* axis the two modes differ even on one curve,
because per-curve mode scales the keys one at a time and a moved key can
collide with a not-yet-scaled key (see the counterexample). -/
theorem c5_amended (sc : Scalist) (w : World)
    (hc : sc.curves = w.host.selCurveNames)
    (hv : sc.key_values = w.host.allSelValues)
    (ht0 : sc.key_times = w.host.allSelTimes)
    (hnd : (w.host.curves.map Curve.name).Nodup)
    (hkt : ∀ c ∈ w.host.curves, (c.keys.map Key.time).Nodup)
    (hone : w.host.selCurveNames.length ≤ 1) :
    (sc.scale_keys_value w).2.host = (sc.scale_keys_value_multi w).2.host := by
  rw [Scalist.scale_keys_value_eq]
  unfold Scalist.scale_keys_value_multi
  rw [foldl_valueMultiStep (effScale sc.pivot sc.scale) sc.curves sc w
    (by rw [hc]; exact selCurveNames_nodup w.host hnd) hnd hkt rfl]
  unfold Host.applyScaleValueAll
  dsimp only
  congr 1
  apply List.map_congr_left
  intro c hcm
  by_cases hmem : c.name ∈ sc.curves
  · rw [if_pos hmem]
    have hne : c.selKeys ≠ [] := by
      rw [hc] at hmem
      exact (mem_selCurveNames_iff w.host hnd c hcm).mp hmem
    rw [hv, ht0, allSelValues_of_single w.host hone c hcm hne,
      allSelTimes_of_single w.host hone c hcm hne]
  · rw [if_neg hmem]
    have hsel : c.selKeys = [] := by
      rw [hc] at hmem
      by_contra hne
      exact hmem ((mem_selCurveNames_iff w.host hnd c hcm).mpr hne)
    exact valueScaled_of_no_sel c hsel _ _

/-- A single curve carrying the whole selection, for the value-axis
equivalence. -/
def c5WHost : Host :=
  { curves := [{ name := "a", keys := [selKey 0 0, selKey 4 2] }],
    currentTime := 0, lastSelTime := 0, lastSelValue := 0 }

/-- The object and world after construction over that store. -/
def c5WS : Scalist :=
  (Scalist.init "pivot_middle_value" 3 "scale_keys_value" ⟨c5WHost, []⟩).1

def c5WW : World :=
  (Scalist.init "pivot_middle_value" 3 "scale_keys_value" ⟨c5WHost, []⟩).2

/-- The amended C5 statement holds on a concrete single-curve store. -/
theorem c5_amended_witness :
    c5WS.curves = c5WW.host.selCurveNames
    ∧ c5WS.key_values = c5WW.host.allSelValues
    ∧ c5WS.key_times = c5WW.host.allSelTimes
    ∧ (c5WW.host.curves.map Curve.name).Nodup
    ∧ (∀ c ∈ c5WW.host.curves, (c.keys.map Key.time).Nodup)
    ∧ c5WW.host.selCurveNames.length ≤ 1
    ∧ (c5WS.scale_keys_value c5WW).2.host = (c5WS.scale_keys_value_multi c5WW).2.host :=
  ⟨by decide, by decide, by decide, by decide, by decide, by decide,
   c5_amended c5WS c5WW (by decide) (by decide) (by decide) (by decide) (by decide) (by decide)⟩

/-- One curve with two selected keys (values 0 and 2), a selection of
size 2. -/
def c6Host : Host :=
  { curves := [{ name := "a", keys := [selKey 0 0, selKey 1 2] }],
    currentTime := 0, lastSelTime := 0, lastSelValue := 0 }

/-- Unified value scaling with the flip-curve-value strategy and user
factor exactly 1. -/
def c6Run : World :=
  let r := Scalist.init "pivot_flip_curve_value" 1 "scale_keys_value" ⟨c6Host, []⟩
  (r.1.scale_keys_value r.2).2

/-- C6 counterexample: a selection of size 2 scaled on the value axis
with factor exactly 1.0 is not a no-op when the strategy is
flip-curve-value: the strategy overwrites the factor with -1, so the
values [0, 2] come out as [2, 0] and the store changes. -/
theorem c6_counterexample :
    c6Host.allSelTimes.length = 2
    ∧ c6Run.host.curveValues "a" = [2, 0]
    ∧ ¬ c6Run.host = c6Host :=
  ⟨by decide, by decide, by decide⟩

/-- C6 amended: for every strategy other than the two flip strategies
(which force the factor to -1), factor exactly 1 is a no-op: both value
operations leave the host unchanged, unified time scaling reduces to the
snap alone (selected keys rounded to integer frames, nothing else moves),
and per-curve time scaling over a nonempty curve list likewise reduces to
the snap alone. -/
theorem c6_amended (sc : Scalist) (w : World)
    (h1 : sc.pivot ≠ "pivot_flip_curve_value") (h2 : sc.pivot ≠ "pivot_flip_zero_value")
    (hs : sc.scale = 1) :
    (sc.scale_keys_value w).2.host = w.host
    ∧ (sc.scale_keys_value_multi w).2.host = w.host
    ∧ (sc.scale_keys_time w).2.host = w.host.applySnapAll
    ∧ (sc.curves ≠ [] → (sc.scale_keys_time_multi w).2.host = w.host.applySnapAll) := by
  have hone : effScale sc.pivot sc.scale = 1 := by
    rw [hs]
    exact effScale_of_ne sc.pivot 1 h1 h2
  refine ⟨?_, ?_, ?_, ?_⟩
  · rw [Scalist.scale_keys_value_eq]
    dsimp only
    rw [hone, Host.applyScaleValueAll_one]
  · exact foldl_valueMultiStep_one sc.pivot h1 h2 sc.curves sc w rfl hs
  · rw [Scalist.scale_keys_time_eq]
    dsimp only
    rw [hone, Host.applyScaleTimeAll_one]
  · intro hne
    exact foldl_timeMultiStep_one sc.pivot h1 h2 sc.curves sc w rfl hs hne

/-- The object and world after construction over the two-key store with
the middle-value strategy and factor 1. -/
def c6WS : Scalist :=
  (Scalist.init "pivot_middle_value" 1 "scale_keys_value" ⟨c6Host, []⟩).1

def c6WW : World :=
  (Scalist.init "pivot_middle_value" 1 "scale_keys_value" ⟨c6Host, []⟩).2

/-- The amended C6 statement holds on a concrete store. -/
theorem c6_amended_witness :
    c6WS.pivot ≠ "pivot_flip_curve_value"
    ∧ c6WS.pivot ≠ "pivot_flip_zero_value"
    ∧ c6WS.scale = 1
    ∧ ((c6WS.scale_keys_value c6WW).2.host = c6WW.host
       ∧ (c6WS.scale_keys_value_multi c6WW).2.host = c6WW.host
       ∧ (c6WS.scale_keys_time c6WW).2.host = c6WW.host.applySnapAll
       ∧ (c6WS.curves ≠ [] →
           (c6WS.scale_keys_time_multi c6WW).2.host = c6WW.host.applySnapAll)) :=
  ⟨by decide, by decide, by decide,
   c6_amended c6WS c6WW (by decide) (by decide) (by decide)⟩

/-- C7: over every host store and every user factor, a value-scale
operation constructed with the flip-curve-value strategy leaves the host
exactly as unified middle-value scaling with factor -1 does (the strategy
forces the effective factor to -1 and pivots on the middle of the
selected values), and one constructed with flip-zero-value leaves it
exactly as zero-value scaling with factor -1 does. -/
theorem c7_flip_equivalences (h : Host) (f : ℚ) (ty : String) :
    (((Scalist.init "pivot_flip_curve_value" f ty ⟨h, []⟩).1.scale_keys_value
        (Scalist.init "pivot_flip_curve_value" f ty ⟨h, []⟩).2).2.host
      = ((Scalist.init "pivot_middle_value" (-1) ty ⟨h, []⟩).1.scale_keys_value
        (Scalist.init "pivot_middle_value" (-1) ty ⟨h, []⟩).2).2.host)
    ∧ (((Scalist.init "pivot_flip_zero_value" f ty ⟨h, []⟩).1.scale_keys_value
        (Scalist.init "pivot_flip_zero_value" f ty ⟨h, []⟩).2).2.host
      = ((Scalist.init "pivot_zero_value" (-1) ty ⟨h, []⟩).1.scale_keys_value
        (Scalist.init "pivot_zero_value" (-1) ty ⟨h, []⟩).2).2.host) := by
  constructor <;> rfl

/-- C8: for every object with a nonempty curve list (the guard admits
only nonempty selections) and a world that has not yet snapped: both
time-axis operations put the snap command in the trace and leave every
selected key of the resulting store at an integer frame time, while
neither value-axis operation ever issues a snap and both leave the time
grid of the store (every curve's key-time list) exactly as it was. -/
theorem c8_snap (sc : Scalist) (w : World)
    (hcur : sc.curves ≠ []) (hw : HostCmd.snapAll ∉ w.trace) :
    (HostCmd.snapAll ∈ (sc.scale_keys_time w).2.trace
      ∧ ∀ c ∈ (sc.scale_keys_time w).2.host.curves, ∀ k ∈ c.keys,
          k.selected = true → ∃ z : ℤ, k.time = (z : ℚ))
    ∧ (HostCmd.snapAll ∈ (sc.scale_keys_time_multi w).2.trace
      ∧ ∀ c ∈ (sc.scale_keys_time_multi w).2.host.curves, ∀ k ∈ c.keys,
          k.selected = true → ∃ z : ℤ, k.time = (z : ℚ))
    ∧ HostCmd.snapAll ∉ (sc.scale_keys_value w).2.trace
    ∧ HostCmd.snapAll ∉ (sc.scale_keys_value_multi w).2.trace
    ∧ (sc.scale_keys_value w).2.host.keyTimes = w.host.keyTimes
    ∧ (sc.scale_keys_value_multi w).2.host.keyTimes = w.host.keyTimes := by
  obtain ⟨w', hw'⟩ := foldl_timeMultiStep_snap sc.curves sc w hcur
  refine ⟨⟨?_, ?_⟩, ⟨?_, ?_⟩, ?_, ?_, ?_, ?_⟩
  · rw [Scalist.scale_keys_time_eq]
    dsimp only
    simp
  · rw [Scalist.scale_keys_time_eq]
    dsimp only
    exact Host.applySnapAll_selected_int _
  · unfold Scalist.scale_keys_time_multi
    rw [hw']
    dsimp only [pmSnapAll]
    simp
  · unfold Scalist.scale_keys_time_multi
    rw [hw']
    exact Host.applySnapAll_selected_int _
  · exact Scalist.scale_keys_value_no_snap sc w hw
  · exact foldl_valueMultiStep_no_snap sc.curves sc w hw
  · rw [Scalist.scale_keys_value_eq]
    dsimp only
    exact applyScaleValueAll_keyTimes _ _ _
  · exact foldl_valueMultiStep_keyTimes sc.curves sc w

/-- The object and world after construction over the two-key store with
the zero-value strategy and factor 2. -/
def c8WS : Scalist :=
  (Scalist.init "pivot_zero_value" 2 "scale_keys_time" ⟨c6Host, []⟩).1

def c8WW : World :=
  (Scalist.init "pivot_zero_value" 2 "scale_keys_time" ⟨c6Host, []⟩).2

/-- The C8 statement holds on a concrete store. -/
theorem c8_snap_witness :
    c8WS.curves ≠ []
    ∧ HostCmd.snapAll ∉ c8WW.trace
    ∧ ((HostCmd.snapAll ∈ (c8WS.scale_keys_time c8WW).2.trace
        ∧ ∀ c ∈ (c8WS.scale_keys_time c8WW).2.host.curves, ∀ k ∈ c.keys,
            k.selected = true → ∃ z : ℤ, k.time = (z : ℚ))
       ∧ (HostCmd.snapAll ∈ (c8WS.scale_keys_time_multi c8WW).2.trace
        ∧ ∀ c ∈ (c8WS.scale_keys_time_multi c8WW).2.host.curves, ∀ k ∈ c.keys,
            k.selected = true → ∃ z : ℤ, k.time = (z : ℚ))
       ∧ HostCmd.snapAll ∉ (c8WS.scale_keys_value c8WW).2.trace
       ∧ HostCmd.snapAll ∉ (c8WS.scale_keys_value_multi c8WW).2.trace
       ∧ (c8WS.scale_keys_value c8WW).2.host.keyTimes = c8WW.host.keyTimes
       ∧ (c8WS.scale_keys_value_multi c8WW).2.host.keyTimes = c8WW.host.keyTimes) :=
  ⟨by decide, by decide, c8_snap c8WS c8WW (by decide) (by decide)⟩

/-- When neither guard condition holds, `check_for_selected_keys` reads
the selection, warns, and reports `false`. -/
theorem check_for_selected_keys_reject (pivot : String) (w : World)
    (h1 : ¬ w.host.allSelTimes.length ≥ 2)
    (h2 : ¬ (w.host.allSelTimes.length > 0 ∧ pivot ∈ single_key_exceptions)) :
    check_for_selected_keys pivot w
      = (false, { host := w.host, trace := (w.trace ++ [HostCmd.querySel])
          ++ [HostCmd.warn "[scalist.py] Please select at least 2 keyframes."] }) := by
  unfold check_for_selected_keys pmQuerySelTimes pmWarn
  dsimp only
  rw [if_neg h1, if_neg h2]

/-- C9: whenever the selection is too small for the chosen strategy (the
Selection Guard's conditions both fail), `do_scale` leaves the host store
untouched, appends exactly the guard's selection read and one warning to
the trace, raises the warning count by exactly one, and issues no
mutating host command. -/
theorem c9_guard_rejection (pivot : String) (f : ℚ) (ty : String) (w : World)
    (h1 : ¬ w.host.allSelTimes.length ≥ 2)
    (h2 : ¬ (w.host.allSelTimes.length > 0 ∧ pivot ∈ single_key_exceptions)) :
    (do_scale pivot f ty w).host = w.host
    ∧ (do_scale pivot f ty w).trace
        = w.trace ++ [HostCmd.querySel,
            HostCmd.warn "[scalist.py] Please select at least 2 keyframes."]
    ∧ warnCount (do_scale pivot f ty w).trace = warnCount w.trace + 1
    ∧ mutCount (do_scale pivot f ty w).trace = mutCount w.trace := by
  have hdo : do_scale pivot f ty w
      = { host := w.host, trace := (w.trace ++ [HostCmd.querySel])
          ++ [HostCmd.warn "[scalist.py] Please select at least 2 keyframes."] } := by
    unfold do_scale
    rw [check_for_selected_keys_reject pivot w h1 h2]
    rfl
  rw [hdo]
  refine ⟨rfl, ?_, ?_, ?_⟩
  · rw [List.append_assoc]
    rfl
  · rw [warnCount_append, warnCount_append]
    rfl
  · rw [mutCount_append, mutCount_append]
    rfl

/-- The C9 statement holds on the one-key store with the middle-value
strategy: one selected key and a strategy outside the single-key
exceptions is rejected with a warning and no mutation. -/
theorem c9_guard_rejection_witness :
    ¬ (⟨c3ExampleHost, []⟩ : World).host.allSelTimes.length ≥ 2
    ∧ ¬ ((⟨c3ExampleHost, []⟩ : World).host.allSelTimes.length > 0
        ∧ "pivot_middle_value" ∈ single_key_exceptions)
    ∧ ((do_scale "pivot_middle_value" 2 "scale_keys_value" ⟨c3ExampleHost, []⟩).host
        = (⟨c3ExampleHost, []⟩ : World).host
      ∧ (do_scale "pivot_middle_value" 2 "scale_keys_value" ⟨c3ExampleHost, []⟩).trace
        = (⟨c3ExampleHost, []⟩ : World).trace ++ [HostCmd.querySel,
            HostCmd.warn "[scalist.py] Please select at least 2 keyframes."]
      ∧ warnCount (do_scale "pivot_middle_value" 2 "scale_keys_value"
            ⟨c3ExampleHost, []⟩).trace
        = warnCount (⟨c3ExampleHost, []⟩ : World).trace + 1
      ∧ mutCount (do_scale "pivot_middle_value" 2 "scale_keys_value"
            ⟨c3ExampleHost, []⟩).trace
        = mutCount (⟨c3ExampleHost, []⟩ : World).trace) :=
  ⟨by decide, by decide,
   c9_guard_rejection "pivot_middle_value" 2 "scale_keys_value" ⟨c3ExampleHost, []⟩
     (by decide) (by decide)⟩

end ConcreteExamples
